import Mathlib

/-!
# A verification model of the rllvm whole-program bitcode collector

This file gives a shallow embedding, in Lean 4, of the core subsystems of the
`rllvm` compiler wrapper: the command-line argument classifier
(`src/arg_parser.rs` together with the flag tables in `src/constants.rs`), the
object-file mutator and reader (`src/utils/file_utils.rs`), the artifact path
derivation (`src/utils/path_utils.rs` and `CompilerArgsInfo::artifact_filepaths`),
and the native command-line reconstruction
(`src/compiler_wrapper/wrapper.rs`, `CompilerWrapper::command`).

Modelling conventions:

* Byte strings that the Rust code manipulates as UTF-8 (section payloads,
  paths, argv tokens) are modelled as Lean `String`s / `List Char`; UTF-8
  encoding preserves and reflects both equality and lexicographic order, so
  nothing relevant to the verified properties is lost.
* Filesystem access is made explicit: functions that probe or write the
  filesystem take oracle parameters or return a trace of filesystem
  operations.
* Rust `u64` arithmetic is modelled as `Nat` with explicit `% 2^64`.
* A Rust panic (out-of-bounds slice indexing) is a distinct outcome,
  separate from returning an `Err` value.
-/

namespace Rllvm

/-- The error kinds of the repository's `Error` enum (`src/error.rs`),
with the message payloads dropped (they never influence control flow). -/
inductive RError where
  | invalidArguments
  | io
  | executionFailure
  | objectReadError
  | objectWriteError
  | stringError
  | loggerError
  | unsupportedBinaryFormat
  | missingFile
  | configError
  | unknown
deriving DecidableEq, Repr

/-- Outcome of running a piece of Rust code that returns `Result<α, Error>`
but may also panic (e.g. on an out-of-bounds slice index).  `outOfFuel` is
used only by the fuelled argument-parser loop; a separate theorem shows the
fuel bound used by the model is never reached. -/
inductive Outcome (α : Type) where
  | ok (a : α)
  | err (e : RError)
  | panicked
  | outOfFuel
deriving DecidableEq, Repr

namespace Outcome

def bind {α β : Type} : Outcome α → (α → Outcome β) → Outcome β
  | .ok a, f => f a
  | .err e, _ => .err e
  | .panicked, _ => .panicked
  | .outOfFuel, _ => .outOfFuel

def map {α β : Type} (f : α → β) : Outcome α → Outcome β
  | .ok a => .ok (f a)
  | .err e => .err e
  | .panicked => .panicked
  | .outOfFuel => .outOfFuel

instance : Monad Outcome where
  pure := .ok
  bind := Outcome.bind
  map := Outcome.map

end Outcome

/-! ## Generic list and string helpers

These model the Rust standard-library primitives used by the repository:
`str::split`, `str::trim`, `Vec::sort` (a stable sort), `Vec::dedup`
(removal of adjacent duplicates). -/

/-- Model of Rust `str::split(c)`: split a character list at every occurrence
of `c`.  Empty pieces are kept, and the empty input yields one empty piece,
exactly as in Rust. -/
def splitOnChar (c : Char) : List Char → List (List Char)
  | [] => [[]]
  | x :: xs =>
    let r := splitOnChar c xs
    if x = c then [] :: r
    else (x :: r.headD []) :: r.tail

/-- The Unicode `White_Space` property, which is what Rust's
`char::is_whitespace` (and hence `str::trim`) tests. -/
def isRustWhitespace (c : Char) : Bool :=
  let n := c.toNat
  (0x09 ≤ n && n ≤ 0x0D) || n = 0x20 || n = 0x85 || n = 0xA0 || n = 0x1680 ||
    (0x2000 ≤ n && n ≤ 0x200A) || n = 0x2028 || n = 0x2029 || n = 0x202F ||
    n = 0x205F || n = 0x3000

/-- Model of Rust `str::trim`: drop leading and trailing whitespace. -/
def rustTrimList (l : List Char) : List Char :=
  ((l.dropWhile isRustWhitespace).reverse.dropWhile isRustWhitespace).reverse

/-- Model of Rust `str::trim` on `String`s. -/
def rustTrim (s : String) : String :=
  ⟨rustTrimList s.data⟩

/-- Insert `x` into `l`, after every element `y` with `le y x`.  Used to model
Rust's stable `Vec::sort`: an element inserted later never moves in front of
an equal element inserted earlier. -/
def insertStable {α : Type} (le : α → α → Bool) (x : α) : List α → List α
  | [] => [x]
  | y :: ys => if le y x then y :: insertStable le x ys else x :: y :: ys

/-- Model of Rust `Vec::sort` (a stable sort) with respect to the total
preorder whose non-strict comparison is `le`. -/
def sortStable {α : Type} (le : α → α → Bool) (l : List α) : List α :=
  l.foldl (fun acc x => insertStable le x acc) []

/-- Walk the tail of a run whose kept representative is `cur`, dropping
elements equal to it and starting a new run otherwise. -/
def dedupAdjFrom {α : Type} (eqb : α → α → Bool) (cur : α) : List α → List α
  | [] => []
  | y :: ys => if eqb cur y then dedupAdjFrom eqb cur ys else y :: dedupAdjFrom eqb y ys

/-- Model of Rust `Vec::dedup`: remove adjacent duplicates, keeping the first
element of each run. -/
def dedupAdj {α : Type} (eqb : α → α → Bool) : List α → List α
  | [] => []
  | x :: xs => x :: dedupAdjFrom eqb x xs

/-- Strict lexicographic comparison of character lists by code point, which
coincides with Rust's byte-wise comparison of UTF-8 encoded strings. -/
def listCharLt : List Char → List Char → Bool
  | [], [] => false
  | [], _ :: _ => true
  | _ :: _, [] => false
  | x :: xs, y :: ys =>
    if x < y then true else if y < x then false else listCharLt xs ys

/-- First-match association-list lookup, modelling `HashMap::get` for a map
built from distinct keys. -/
def assocLookup {α : Type} (k : String) : List (String × α) → Option α
  | [] => none
  | (k', v) :: rest => if k = k' then some v else assocLookup k rest

/-- Model of Rust `str::starts_with` (kept structurally recursive so that
concrete instances reduce inside the kernel). -/
def strStartsWith (s pre : String) : Bool :=
  pre.data.isPrefixOf s.data

/-- Model of Rust `str::ends_with`. -/
def strEndsWith (s suffix : String) : Bool :=
  suffix.data.isSuffixOf s.data

/-! ## Rust `Path` model (Unix)

Rust `PathBuf` values retain the string they were built from, but their
`Eq`/`Ord` instances compare the parsed *component* sequences.  We therefore
model a path as its underlying `String`, plus the component parser below,
which follows `std::path` on Unix: repeated separators collapse, `.`
components are dropped except for a leading one, a leading `/` is the root
component. -/

/-- A parsed path component (`std::path::Component`, Unix variants).  The
constructor order matches the Rust declaration order, which the derived
`Ord` instance on components uses. -/
inductive RComponent where
  | rootDir
  | curDir
  | parentDir
  | normal (s : List Char)
deriving DecidableEq, Repr

/-- Numeric rank of a component constructor, mirroring the derived `Ord`. -/
def RComponent.rank : RComponent → Nat
  | .rootDir => 0
  | .curDir => 1
  | .parentDir => 2
  | .normal _ => 3

/-- Strict order on components: by constructor rank, then byte-wise on the
`normal` payload. -/
def compLt : RComponent → RComponent → Bool
  | .normal s, .normal t => listCharLt s t
  | a, b => a.rank < b.rank

/-- Lexicographic strict order on component sequences, mirroring the
`Iterator`-based `Ord` implementation of Rust `Path`. -/
def compsLt : List RComponent → List RComponent → Bool
  | [], [] => false
  | [], _ :: _ => true
  | _ :: _, [] => false
  | x :: xs, y :: ys =>
    if compLt x y then true else if compLt y x then false else compsLt xs ys

/-- Turn the separator-split pieces of a path body into components: empty
pieces and `"."` pieces are dropped, `".."` is `parentDir`. -/
def piecesToComps : List (List Char) → List RComponent
  | [] => []
  | piece :: rest =>
    if piece = [] || piece = ['.'] then piecesToComps rest
    else
      (if piece = ['.', '.'] then RComponent.parentDir else RComponent.normal piece)
        :: piecesToComps rest

/-- Model of Rust `Path::components` on Unix: a leading `/` is the root; a
leading `"."` piece is kept as `curDir` only when there is no root. -/
def pathComponents (p : String) : List RComponent :=
  let cs := p.data
  let pieces := splitOnChar '/' cs
  let hasRoot : Bool := cs.head? = some '/'
  (if hasRoot then [RComponent.rootDir] else []) ++
    (if !hasRoot && pieces.head? = some ['.'] then [RComponent.curDir] else []) ++
    piecesToComps pieces

/-- Rust `PathBuf` equality (`PartialEq` compares component sequences). -/
def pathEqB (a b : String) : Bool :=
  pathComponents a = pathComponents b

/-- Rust `PathBuf` strict order. -/
def pathLtB (a b : String) : Bool :=
  compsLt (pathComponents a) (pathComponents b)

/-- Non-strict path comparison used to instantiate the stable sort. -/
def pathLeB (a b : String) : Bool :=
  !pathLtB b a

/-- Model of Rust `Path::is_absolute` on Unix. -/
def rustIsAbsolute (p : String) : Bool :=
  strStartsWith p "/"

/-- Render a component back to characters (used to rebuild parent paths;
this normalizes repeated separators, on which no verified property
depends). -/
def compStr : RComponent → List Char
  | .rootDir => ['/']
  | .curDir => ['.']
  | .parentDir => ['.', '.']
  | .normal s => s

/-- Join non-root components with `/`. -/
def joinSlash : List RComponent → List Char
  | [] => []
  | [c] => compStr c
  | c :: rest => compStr c ++ '/' :: joinSlash rest

/-- Render a component sequence back to a path string. -/
def renderComps : List RComponent → List Char
  | [] => []
  | .rootDir :: rest => '/' :: joinSlash rest
  | l => joinSlash l

/-- Model of Rust `Path::file_name`: the last component when it is a normal
component, otherwise `none`. -/
def rpFileName (p : String) : Option (List Char) :=
  match (pathComponents p).getLast? with
  | some (.normal s) => some s
  | _ => none

/-- Model of Rust `Path::parent`: strip the last component; `none` when the
path is empty or consists of the root alone. -/
def rpParent (p : String) : Option String :=
  let comps := pathComponents p
  match comps.getLast? with
  | some (.normal _) => some ⟨renderComps comps.dropLast⟩
  | some .curDir => some ⟨renderComps comps.dropLast⟩
  | some .parentDir => some ⟨renderComps comps.dropLast⟩
  | _ => none

/-- Index of the last occurrence of `c` in `l`, if any. -/
def lastIndexOf (c : Char) (l : List Char) : Option Nat :=
  match l with
  | [] => none
  | x :: xs =>
    match lastIndexOf c xs with
    | some i => some (i + 1)
    | none => if x = c then some 0 else none

/-- Model of Rust's `split_file_at_dot`, the common core of
`Path::file_stem` and `Path::extension`: split a file name at the last dot,
except that `".."` and names whose only dot is the leading one are all stem
and have no extension. -/
def splitFileAtDot (f : List Char) : List Char × Option (List Char) :=
  if f = ['.', '.'] then (f, none)
  else
    match lastIndexOf '.' f with
    | none => (f, none)
    | some 0 => (f, none)
    | some i => (f.take i, some (f.drop (i + 1)))

/-- Model of Rust `Path::file_stem`. -/
def rpFileStem (p : String) : Option (List Char) :=
  (rpFileName p).map (fun f => (splitFileAtDot f).1)

/-- Model of Rust `Path::extension`. -/
def rpExtension (p : String) : Option (List Char) :=
  (rpFileName p).bind (fun f => (splitFileAtDot f).2)

/-- Model of Rust `PathBuf::push` / `Path::join` with the second argument
used by the repository (a bare file name or an absolute path). -/
def rpJoin (p : String) (name : String) : String :=
  if rustIsAbsolute name then name
  else if p = "" then name
  else if strEndsWith p "/" then p ++ name
  else p ++ "/" ++ name

/-! ## Object-file model (`src/utils/file_utils.rs`)

The repository manipulates native objects through the `object` crate.  We
model a parsed object (`object::File`) and a writable object
(`object::write::Object`) at the level of detail `copy_object_file`
inspects: formats, kinds, sections with their payloads, symbols,
relocations and COMDAT groups.  Payload fields that the code copies
verbatim without inspecting (symbol kinds and scopes, relocation flags,
top-level file flags, architectures) are modelled as opaque numeric
codes. -/

/-- `object::BinaryFormat`, with one extra constructor standing for all the
formats the mutator rejects. -/
inductive RBinaryFormat where
  | elf
  | machO
  | coff
  | otherFormat
deriving DecidableEq, Repr

/-- `object::ObjectKind`. -/
inductive RObjectKind where
  | relocatable
  | executable
  | dynamic
  | otherKind
deriving DecidableEq, Repr

/-- `object::SectionKind`, restricted to the distinctions
`copy_object_file` makes: `metadata` sections are skipped, the bss-like
kinds get a BSS allocation instead of copied bytes, `unknownSection` is the
kind of the added bitcode-path section. -/
inductive RSectionKind where
  | text
  | data
  | readOnlyData
  | uninitializedData
  | uninitializedTls
  | common
  | metadata
  | unknownSection
  | otherSectionKind
deriving DecidableEq, Repr

/-- `object::SectionKind::is_bss`. -/
def RSectionKind.isBss : RSectionKind → Bool
  | .uninitializedData => true
  | .uninitializedTls => true
  | .common => true
  | _ => false

/-- `object::SectionFlags`. -/
inductive RSectionFlags where
  | noFlags
  | elfFlags (shFlags : Nat)
  | machOFlags (flags : Nat)
  | coffFlags (characteristics : Nat)
  | otherSectionFlags
deriving DecidableEq, Repr

/-- `object::RelocationTarget`. -/
inductive RRelocTarget where
  | symbolT (idx : Nat)
  | sectionT (idx : Nat)
  | otherTarget
deriving DecidableEq, Repr

/-- A relocation as `copy_object_file` reads it: offset, target, addend and
verbatim-copied flags. -/
structure RReloc where
  offset : Nat
  target : RRelocTarget
  addend : Int
  flags : Nat
deriving DecidableEq, Repr

/-- A section of a parsed object.  Section names and byte payloads are
modelled as strings (see the header); `address` and `size` feed the symbol
value adjustment and the BSS allocation. -/
structure RSection where
  segmentName : String
  name : String
  kind : RSectionKind
  address : Nat
  size : Nat
  align : Nat
  data : String
  relocs : List RReloc
  flags : RSectionFlags
deriving DecidableEq, Repr

/-- `object::SymbolSection`. -/
inductive RSymbolSection where
  | noneSec
  | undefinedSec
  | absoluteSec
  | commonSec
  | sectionSec (idx : Nat)
  | otherSymbolSection
deriving DecidableEq, Repr

/-- `object::SymbolFlags`; section and symbol indices inside the variants
are remapped by `copy_object_file`. -/
inductive RSymbolFlags where
  | noneFlags
  | elfSym (stInfo stOther : Nat)
  | machOSym (nDesc : Nat)
  | coffSectionSym (selection : Nat) (associative : Option Nat)
  | xcoffSym (nSclass xSmtyp xSmclas : Nat) (containingCsect : Option Nat)
  | otherSymbolFlags
deriving DecidableEq, Repr

/-- A symbol of a parsed object.  `kind` and `scope` are copied verbatim and
modelled as opaque codes. -/
structure RSymbol where
  name : String
  address : Nat
  size : Nat
  kind : Nat
  scope : Nat
  weak : Bool
  sectionRef : RSymbolSection
  flags : RSymbolFlags
deriving DecidableEq, Repr

/-- A COMDAT group: verbatim kind code, representative symbol index, member
section indices. -/
structure RComdat where
  kind : Nat
  symbol : Nat
  sections : List Nat
deriving DecidableEq, Repr

/-- A parsed object file (`object::File`).  Section and symbol indices are
list positions. -/
structure ObjFile where
  format : RBinaryFormat
  architecture : Nat
  endianness : Nat
  kind : RObjectKind
  flags : Nat
  sections : List RSection
  symbols : List RSymbol
  comdats : List RComdat
deriving DecidableEq, Repr


/-- `object::write::SymbolSection`: the section reference of a symbol being
written, with indices into the output section list. -/
inductive WSymbolSection where
  | noneS
  | undefinedS
  | absoluteS
  | commonS
  | sectionS (outId : Nat)
deriving DecidableEq, Repr

/-- A symbol of the output object (`object::write::Symbol`). -/
structure WSymbol where
  name : String
  value : Nat
  size : Nat
  kind : Nat
  scope : Nat
  weak : Bool
  sectionRef : WSymbolSection
  flags : RSymbolFlags
deriving DecidableEq, Repr

/-- A relocation of the output object (`object::write::Relocation`): the
target has been remapped to an output symbol id. -/
structure WReloc where
  offset : Nat
  symbol : Nat
  addend : Int
  flags : Nat
deriving DecidableEq, Repr

/-- A section of the output object (`object::write::Section`).  `data` is
`none` for a BSS allocation of `bssSize` bytes.  `secSymbol` caches the
section symbol created by `Object::section_symbol`. -/
structure WSection where
  segmentName : String
  name : String
  kind : RSectionKind
  align : Nat
  data : Option String
  bssSize : Nat
  relocs : List WReloc
  secSymbol : Option Nat
  flags : RSectionFlags
deriving DecidableEq, Repr

/-- The output object under construction (`object::write::Object`).  The
source also sets `mangling = Mangling::None`, a constant with no further
effect in the model.  COMDAT groups reuse `RComdat` with output ids. -/
structure WObject where
  format : RBinaryFormat
  architecture : Nat
  endianness : Nat
  flags : Nat
  sections : List WSection
  symbols : List WSymbol
  comdats : List RComdat
deriving DecidableEq, Repr

/-- Lookup in an index-remapping association list (`HashMap<usize, id>`). -/
def mapLookup (m : List (Nat × Nat)) (k : Nat) : Option Nat :=
  (m.find? (fun e => e.1 == k)).map (fun e => e.2)

/-- One step of the section pass: skip a `Metadata` section, otherwise add
the copied section (BSS sections get an allocation, others copied bytes)
and record the index map entry. -/
def copySectionsStep (acc : List WSection × List (Nat × Nat))
    (p : Nat × RSection) : List WSection × List (Nat × Nat) :=
  if p.2.kind = .metadata then acc
  else
    let w : WSection :=
      { segmentName := p.2.segmentName, name := p.2.name, kind := p.2.kind,
        align := p.2.align,
        data := if p.2.kind.isBss then none else some p.2.data,
        bssSize := p.2.size, relocs := [], secSymbol := none, flags := p.2.flags }
    (acc.1 ++ [w], acc.2 ++ [(p.1, acc.1.length)])

/-- The section pass of `copy_object_file`: traverse input sections in
order. -/
def copySections (o : ObjFile) : List WSection × List (Nat × Nat) :=
  o.sections.enum.foldl copySectionsStep ([], [])

/-- The symbol pass of `copy_object_file`.  Symbols pointing into skipped
sections are dropped (`continue`); unknown section references or flag
shapes are `InvalidArguments`; the `unwrap`s on the remapping maps inside
the COFF and XCOFF flag arms are modelled as panics.  Symbol values are
adjusted by the referenced input section's address (`u64` subtraction,
modelled as truncated `Nat` subtraction). -/
def copySymbols (o : ObjFile) (secMap : List (Nat × Nat)) :
    Outcome (List WSymbol × List (Nat × Nat)) :=
  o.symbols.enum.foldl
    (fun acc p => do
      let (syms, symMap) ← acc
      let (idx, s) := p
      let secVal : Outcome (Option (WSymbolSection × Nat)) :=
        match s.sectionRef with
        | .noneSec => .ok (some (.noneS, s.address))
        | .undefinedSec => .ok (some (.undefinedS, s.address))
        | .absoluteSec => .ok (some (.absoluteS, s.address))
        | .commonSec => .ok (some (.commonS, s.address))
        | .sectionSec i =>
          match mapLookup secMap i with
          | some outId =>
            match o.sections.get? i with
            | some insec => .ok (some (.sectionS outId, s.address - insec.address))
            | none => .err .objectReadError
          | none => .ok none
        | .otherSymbolSection => .err .invalidArguments
      match ← secVal with
      | none => .ok (syms, symMap)
      | some (sec, value) =>
        let flagsOut : Outcome RSymbolFlags :=
          match s.flags with
          | .noneFlags => .ok .noneFlags
          | .elfSym a b => .ok (.elfSym a b)
          | .machOSym d => .ok (.machOSym d)
          | .coffSectionSym sel assoc =>
            match assoc with
            | none => .ok (.coffSectionSym sel none)
            | some i =>
              match mapLookup secMap i with
              | some outId => .ok (.coffSectionSym sel (some outId))
              | none => .panicked
          | .xcoffSym a b c csect =>
            match csect with
            | none => .ok (.xcoffSym a b c none)
            | some i =>
              match mapLookup symMap i with
              | some outId => .ok (.xcoffSym a b c (some outId))
              | none => .panicked
          | .otherSymbolFlags => .err .invalidArguments
        let fl ← flagsOut
        let wsym : WSymbol :=
          { name := s.name, value := value, size := s.size, kind := s.kind,
            scope := s.scope, weak := s.weak, sectionRef := sec, flags := fl }
        .ok (syms ++ [wsym], symMap ++ [(idx, syms.length)]))
    (.ok ([], []))

/-- `object::write::Object::section_symbol`: return the cached section
symbol of an output section, creating it on first use. -/
def sectionSymbolW (secs : List WSection) (syms : List WSymbol) (outId : Nat) :
    List WSection × List WSymbol × Nat :=
  match secs.get? outId with
  | some w =>
    match w.secSymbol with
    | some symId => (secs, syms, symId)
    | none =>
      let symId := syms.length
      let sym : WSymbol :=
        { name := "", value := 0, size := 0, kind := 0, scope := 0, weak := false,
          sectionRef := .sectionS outId, flags := .noneFlags }
      (secs.set outId { w with secSymbol := some symId }, syms ++ [sym], symId)
  | none => (secs, syms, 0)

/-- Append a relocation to the output section `outId`
(`object::write::Object::add_relocation`; format-specific addend handling
inside the library is not inspected by the repository and is not
modelled). -/
def appendReloc (secs : List WSection) (outId : Nat) (r : WReloc) : List WSection :=
  match secs.get? outId with
  | some w => secs.set outId { w with relocs := w.relocs ++ [r] }
  | none => secs

/-- Resolve a relocation target to an output symbol id: symbol targets go
through the symbol map, section targets through the section map plus the
target section's canonical symbol; the `unwrap`s on the maps are modelled
as panics and unknown targets are `InvalidArguments`. -/
def resolveRelocTarget (secMap symMap : List (Nat × Nat))
    (st : List WSection × List WSymbol) (t : RRelocTarget) :
    Outcome (List WSection × List WSymbol × Nat) :=
  match t with
  | .symbolT i =>
    match mapLookup symMap i with
    | some sid => .ok (st.1, st.2, sid)
    | none => .panicked
  | .sectionT i =>
    match mapLookup secMap i with
    | some sOut => .ok (sectionSymbolW st.1 st.2 sOut)
    | none => .panicked
  | .otherTarget => .err .invalidArguments

/-- Remap and add one relocation of a retained input section. -/
def copyOneReloc (secMap symMap : List (Nat × Nat)) (outId : Nat)
    (st : List WSection × List WSymbol) (r : RReloc) :
    Outcome (List WSection × List WSymbol) := do
  let (secs, syms, symId) ← resolveRelocTarget secMap symMap st r.target
  .ok (appendReloc secs outId
        { offset := r.offset, symbol := symId, addend := r.addend,
          flags := r.flags }, syms)

/-- Iterate `copyOneReloc` over the relocations of one input section. -/
def copySectionRelocs (secMap symMap : List (Nat × Nat)) (outId : Nat)
    (relocs : List RReloc) (st : List WSection × List WSymbol) :
    Outcome (List WSection × List WSymbol) :=
  relocs.foldl (fun acc r => acc >>= fun st => copyOneReloc secMap symMap outId st r)
    (.ok st)

/-- One outer step of the relocation pass: skip metadata sections, look up
the output id of the retained section (an `unwrap`, modelled as a panic on
a missing entry) and copy its relocations. -/
def copyRelocsStep (secMap symMap : List (Nat × Nat))
    (st : List WSection × List WSymbol) (p : Nat × RSection) :
    Outcome (List WSection × List WSymbol) :=
  if p.2.kind = .metadata then .ok st
  else
    match mapLookup secMap p.1 with
    | none => .panicked
    | some outId => copySectionRelocs secMap symMap outId p.2.relocs st

/-- The relocation pass of `copy_object_file`: for every retained input
section, remap each relocation and add it to the corresponding output
section. -/
def copyRelocations (o : ObjFile) (secMap : List (Nat × Nat))
    (secs0 : List WSection) (syms0 : List WSymbol) (symMap : List (Nat × Nat)) :
    Outcome (List WSection × List WSymbol) :=
  o.sections.enum.foldl
    (fun acc p => acc >>= fun st => copyRelocsStep secMap symMap st p)
    (.ok (secs0, syms0))

/-- The COMDAT pass of `copy_object_file`: remap the representative symbol
and the member sections (the `unwrap`s are modelled as panics). -/
def copyComdats (o : ObjFile) (secMap symMap : List (Nat × Nat)) :
    Outcome (List RComdat) :=
  o.comdats.foldl
    (fun acc c => do
      let cs ← acc
      let secsOut ← c.sections.foldl
        (fun a i => do
          let l ← a
          match mapLookup secMap i with
          | some sOut => Outcome.ok (l ++ [sOut])
          | none => Outcome.panicked)
        (.ok [])
      match mapLookup symMap c.symbol with
      | some symOut => .ok (cs ++ [{ kind := c.kind, symbol := symOut, sections := secsOut }])
      | none => .panicked)
    (.ok [])

/-- `copy_object_file` (`src/utils/file_utils.rs`): reject non-relocatable
objects, then rebuild sections, symbols, relocations and COMDAT groups into
a fresh writable object of the same format, architecture, endianness and
top-level flags. -/
def copy_object_file (o : ObjFile) : Outcome WObject :=
  if o.kind ≠ .relocatable then .err .invalidArguments
  else
    let cs := copySections o
    do
      let sp ← copySymbols o cs.2
      let st ← copyRelocations o cs.2 cs.1 sp.1 sp.2
      let comdats ← copyComdats o cs.2 sp.2
      .ok { format := o.format, architecture := o.architecture,
            endianness := o.endianness, flags := o.flags,
            sections := st.1, symbols := st.2, comdats := comdats }

/-! ## Section names and the embed / extract pair -/

def DARWIN_SEGMENT_NAME : String := "__RLLVM"

def DARWIN_SECTION_NAME : String := "__llvm_bc"

def ELF_SECTION_NAME : String := ".llvm_bc"

/-- Modelled from the spec: `COFF_SECTION_NAME` is imported by
`file_utils.rs` but absent from the provided `constants.rs`; §3 and §6 of
the specification fix the COFF bitcode section name as `.llvm_bc`. -/
def COFF_SECTION_NAME : String := ".llvm_bc"

/-- Modelled from the spec: `fs::canonicalize` of a relative path resolves
it against the current working directory (symlink resolution and the
existence check are filesystem behavior outside the model). -/
def canonicalizeModel (cwd p : String) : String :=
  rpJoin cwd p

/-- A filesystem write operation performed by the mutator; used to state
what `embed` does to the disk. -/
inductive FsOp where
  | writeFile (path : String)
  | renameFile (src dst : String)
deriving DecidableEq, Repr

/-- The `bitcode_filepath_string` computed inside
`embed_bitcode_filepath_to_object_file`: the path itself when absolute,
otherwise the canonicalized path followed by a newline. -/
def bitcodeFilepathString (cwd bitcodePath : String) : String :=
  if rustIsAbsolute bitcodePath then bitcodePath
  else canonicalizeModel cwd bitcodePath ++ "\n"

/-- The platform-dependent `(segment_name, section_name, flags)` triple of
the embed function. -/
def sectionParamsFor (fmt : RBinaryFormat) : Outcome (String × String × RSectionFlags) :=
  match fmt with
  | .elf => .ok ("", ELF_SECTION_NAME, .elfFlags 0)
  | .machO => .ok (DARWIN_SEGMENT_NAME, DARWIN_SECTION_NAME, .machOFlags 0)
  | .coff => .ok ("", COFF_SECTION_NAME, .coffFlags 0)
  | .otherFormat => .err .unsupportedBinaryFormat

/-- `embed_bitcode_filepath_to_object_file` (`src/utils/file_utils.rs`).
The input file read and parse are modelled by taking the parsed input
object directly; serialization (`new_object_file.write()`) is library
behavior taken as successful.  The returned trace records the filesystem
writes the function performs: one direct write, to the explicit output path
if given, otherwise to the input path. -/
def embed_bitcode_filepath_to_object_file (cwd : String) (bitcodeFilepath : String)
    (objectFilepath : String) (outputObjectFilepath : Option String)
    (inputObject : ObjFile) : Outcome (WObject × List FsOp) := do
  let (segName, secName, flags) ← sectionParamsFor inputObject.format
  let w ← copy_object_file inputObject
  let content := bitcodeFilepathString cwd bitcodeFilepath
  let bcSection : WSection :=
    { segmentName := segName, name := secName, kind := .unknownSection, align := 1,
      data := some content, bssSize := 0, relocs := [], secSymbol := none,
      flags := flags }
  let w' := { w with sections := w.sections ++ [bcSection] }
  let fsOps :=
    match outputObjectFilepath with
    | some out => [FsOp.writeFile out]
    | none => [FsOp.writeFile objectFilepath]
  .ok (w', fsOps)

/-- The `object` crate contract underlying the file-level round trip:
writing a constructed object and re-parsing its bytes yields an object of
the same format whose section list preserves segment names, names, kinds
and payloads (BSS payloads read back as zeros, not representable in the
string model and irrelevant here, as extraction never touches them).
Symbols, relocations and COMDAT groups are not consulted by extraction and
are not tracked across this bridge. -/
def parsedOfWritten (w : WObject) : ObjFile :=
  { format := w.format, architecture := w.architecture, endianness := w.endianness,
    kind := .relocatable, flags := w.flags,
    sections := w.sections.map (fun s =>
      { segmentName := s.segmentName, name := s.name, kind := s.kind, address := 0,
        size := s.bssSize, align := s.align, data := s.data.getD "", relocs := [],
        flags := s.flags }),
    symbols := [], comdats := [] }

/-- The format-specific section name that
`extract_bitcode_filepaths_from_parsed_object` looks up. -/
def bitcodeSectionNameFor (fmt : RBinaryFormat) : Outcome String :=
  match fmt with
  | .elf => .ok ELF_SECTION_NAME
  | .machO => .ok DARWIN_SECTION_NAME
  | .coff => .ok COFF_SECTION_NAME
  | .otherFormat => .err .unsupportedBinaryFormat

/-- `extract_bitcode_filepaths_from_parsed_object`
(`src/utils/file_utils.rs`): look up the first section with the
format-specific name (`section_by_name_bytes`); if absent return the empty
list, else trim the decoded payload, split on newlines, turn every piece
into a path, sort (stably, in the path order), and remove adjacent
duplicates.  In the string model the UTF-8 decoding step always
succeeds. -/
def extract_bitcode_filepaths_from_parsed_object (o : ObjFile) :
    Outcome (List String) := do
  let secName ← bitcodeSectionNameFor o.format
  match o.sections.find? (fun s => s.name == secName) with
  | some sec =>
    let trimmed := rustTrimList sec.data.data
    let paths : List String := (splitOnChar '\n' trimmed).map (fun l => ⟨l⟩)
    .ok (dedupAdj pathEqB (sortStable pathLeB paths))
  | none => .ok []

/-- `extract_bitcode_filepaths_from_object_file` reads and parses a file
and delegates to the parsed-object extractor; with file reading external,
its model applies that extractor to the written-then-reparsed object. -/
def extract_bitcode_filepaths_from_object_file (w : WObject) : Outcome (List String) :=
  extract_bitcode_filepaths_from_parsed_object (parsedOfWritten w)

/-! ## The argument classifier (`src/arg_parser.rs`, tables in `src/constants.rs`) -/

/-- The parsed-argument record `CompilerArgsInfo`, with the field names of
the Rust struct. -/
structure CompilerArgsInfo where
  input_args : List String := []
  input_files : List String := []
  object_files : List String := []
  output_filename : String := ""
  compile_args : List String := []
  link_args : List String := []
  forbidden_flags : List String := []
  is_verbose : Bool := false
  is_dependency_only : Bool := false
  is_preprocess_only : Bool := false
  is_assemble_only : Bool := false
  is_assembly : Bool := false
  is_compile_only : Bool := false
  is_emit_llvm : Bool := false
  is_lto : Bool := false
  is_print_only : Bool := false
deriving DecidableEq, Repr

/-- The classification verbs: the closed set of `CompilerArgsInfo` handler
methods that the flag tables reference (the n-ary `linker_group` is handled
inline by the parse loop, as in the source). -/
inductive Handler where
  | inputFile
  | outputFile
  | objectFile
  | preprocessOnly
  | dependencyOnly
  | printOnly
  | assembleOnly
  | verbose
  | compileOnly
  | emitLlvm
  | lto
  | linkUnary
  | compileUnary
  | warningLinkUnary
  | defaultBinary
  | dependencyBinary
  | compileBinary
  | linkBinary
  | compileLinkUnary
  | compileLinkBinary
deriving DecidableEq, Repr

/-- Apply a handler method to the record, with the consumed flag and its
parameter slice, exactly as the corresponding Rust method does.  Binary
handlers are only ever invoked with arity 1, so `params.take 1` is the
singleton `args[0]` of the source. -/
def applyHandler (info : CompilerArgsInfo) (h : Handler) (flag : String)
    (params : List String) : CompilerArgsInfo :=
  match h with
  | .inputFile =>
    let info := { info with input_files := info.input_files ++ [flag] }
    if strEndsWith flag ".s" || strEndsWith flag ".S" then { info with is_assembly := true }
    else info
  | .outputFile => { info with output_filename := params.headD "" }
  | .objectFile =>
    { info with object_files := info.object_files ++ [flag],
                link_args := info.link_args ++ [flag] }
  | .preprocessOnly => { info with is_preprocess_only := true }
  | .dependencyOnly =>
    { info with is_dependency_only := true,
                compile_args := info.compile_args ++ [flag] }
  | .printOnly => { info with is_print_only := true }
  | .assembleOnly => { info with is_assemble_only := true }
  | .verbose => { info with is_verbose := true }
  | .compileOnly => { info with is_compile_only := true }
  | .emitLlvm => { info with is_emit_llvm := true, is_compile_only := true }
  | .lto => { info with is_lto := true }
  | .linkUnary => { info with link_args := info.link_args ++ [flag] }
  | .compileUnary => { info with compile_args := info.compile_args ++ [flag] }
  | .warningLinkUnary =>
    { info with forbidden_flags := info.forbidden_flags ++ [flag] }
  | .defaultBinary => info
  | .dependencyBinary =>
    { info with compile_args := info.compile_args ++ [flag] ++ params.take 1,
                is_dependency_only := true }
  | .compileBinary =>
    { info with compile_args := info.compile_args ++ [flag] ++ params.take 1 }
  | .linkBinary =>
    { info with link_args := info.link_args ++ [flag] ++ params.take 1 }
  | .compileLinkUnary =>
    { info with compile_args := info.compile_args ++ [flag],
                link_args := info.link_args ++ [flag] }
  | .compileLinkBinary =>
    { info with compile_args := info.compile_args ++ [flag] ++ params.take 1,
                link_args := info.link_args ++ [flag] ++ params.take 1 }

/-- `arg_exact_match_map` (`src/constants.rs`): the exact-match flag table,
as `(flag, arity, handler)` triples in the order of the `insert` calls.
All keys are distinct, so first-match lookup coincides with `HashMap`
lookup. -/
def exactArgMap : List (String × Nat × Handler) := [
  ("/dev/null", 0, Handler.inputFile),
  ("-", 0, Handler.printOnly),
  ("-o", 1, Handler.outputFile),
  ("-c", 0, Handler.compileOnly),
  ("-E", 0, Handler.preprocessOnly),
  ("-S", 0, Handler.assembleOnly),
  ("--verbose", 0, Handler.verbose),
  ("--param", 1, Handler.defaultBinary),
  ("-aux-info", 1, Handler.defaultBinary),
  ("--version", 0, Handler.compileOnly),
  ("-v", 0, Handler.compileOnly),
  ("-w", 0, Handler.compileUnary),
  ("-W", 0, Handler.compileUnary),
  ("-emit-llvm", 0, Handler.emitLlvm),
  ("-flto", 0, Handler.lto),
  ("-pipe", 0, Handler.compileUnary),
  ("-undef", 0, Handler.compileUnary),
  ("-nostdinc", 0, Handler.compileUnary),
  ("-nostdinc++", 0, Handler.compileUnary),
  ("-Qunused-arguments", 0, Handler.compileUnary),
  ("-no-integrated-as", 0, Handler.compileUnary),
  ("-integrated-as", 0, Handler.compileUnary),
  ("-no-canonical-prefixes", 0, Handler.compileLinkUnary),
  ("--sysroot", 1, Handler.compileLinkBinary),
  ("-no-cpp-precomp", 0, Handler.compileUnary),
  ("-pthread", 0, Handler.linkUnary),
  ("-nostdlibinc", 0, Handler.compileUnary),
  ("-mno-omit-leaf-frame-pointer", 0, Handler.compileUnary),
  ("-maes", 0, Handler.compileUnary),
  ("-mno-aes", 0, Handler.compileUnary),
  ("-mavx", 0, Handler.compileUnary),
  ("-mno-avx", 0, Handler.compileUnary),
  ("-mavx2", 0, Handler.compileUnary),
  ("-mno-avx2", 0, Handler.compileUnary),
  ("-mno-red-zone", 0, Handler.compileUnary),
  ("-mmmx", 0, Handler.compileUnary),
  ("-mbmi", 0, Handler.compileUnary),
  ("-mbmi2", 0, Handler.compileUnary),
  ("-mf161c", 0, Handler.compileUnary),
  ("-mfma", 0, Handler.compileUnary),
  ("-mno-mmx", 0, Handler.compileUnary),
  ("-mno-global-merge", 0, Handler.compileUnary),
  ("-mno-80387", 0, Handler.compileUnary),
  ("-msse", 0, Handler.compileUnary),
  ("-mno-sse", 0, Handler.compileUnary),
  ("-msse2", 0, Handler.compileUnary),
  ("-mno-sse2", 0, Handler.compileUnary),
  ("-msse3", 0, Handler.compileUnary),
  ("-mno-sse3", 0, Handler.compileUnary),
  ("-mssse3", 0, Handler.compileUnary),
  ("-mno-ssse3", 0, Handler.compileUnary),
  ("-msse4", 0, Handler.compileUnary),
  ("-mno-sse4", 0, Handler.compileUnary),
  ("-msse4.1", 0, Handler.compileUnary),
  ("-mno-sse4.1", 0, Handler.compileUnary),
  ("-msse4.2", 0, Handler.compileUnary),
  ("-mno-sse4.2", 0, Handler.compileUnary),
  ("-msoft-float", 0, Handler.compileUnary),
  ("-m3dnow", 0, Handler.compileUnary),
  ("-mno-3dnow", 0, Handler.compileUnary),
  ("-m16", 0, Handler.compileLinkUnary),
  ("-m32", 0, Handler.compileLinkUnary),
  ("-m64", 0, Handler.compileLinkUnary),
  ("-mstackrealign", 0, Handler.compileUnary),
  ("-mretpoline-external-thunk", 0, Handler.compileUnary),
  ("-mno-fp-ret-in-387", 0, Handler.compileUnary),
  ("-mskip-rax-setup", 0, Handler.compileUnary),
  ("-mindirect-branch-register", 0, Handler.compileUnary),
  ("-mllvm", 1, Handler.compileBinary),
  ("-A", 1, Handler.compileBinary),
  ("-D", 1, Handler.compileBinary),
  ("-U", 1, Handler.compileBinary),
  ("-arch", 1, Handler.compileBinary),
  ("-P", 1, Handler.compileUnary),
  ("-C", 1, Handler.compileUnary),
  ("-M", 0, Handler.dependencyOnly),
  ("-MM", 0, Handler.dependencyOnly),
  ("-MF", 1, Handler.dependencyBinary),
  ("-MJ", 1, Handler.dependencyBinary),
  ("-MG", 0, Handler.dependencyOnly),
  ("-MP", 0, Handler.dependencyOnly),
  ("-MT", 1, Handler.dependencyBinary),
  ("-MQ", 1, Handler.dependencyBinary),
  ("-MD", 0, Handler.dependencyOnly),
  ("-MV", 0, Handler.dependencyOnly),
  ("-MMD", 0, Handler.dependencyOnly),
  ("-I", 1, Handler.compileBinary),
  ("-idirafter", 1, Handler.compileBinary),
  ("-include", 1, Handler.compileBinary),
  ("-imacros", 1, Handler.compileBinary),
  ("-iprefix", 1, Handler.compileBinary),
  ("-iwithprefix", 1, Handler.compileBinary),
  ("-iwithprefixbefore", 1, Handler.compileBinary),
  ("-isystem", 1, Handler.compileBinary),
  ("-isysroot", 1, Handler.compileBinary),
  ("-iquote", 1, Handler.compileBinary),
  ("-imultilib", 1, Handler.compileBinary),
  ("-ansi", 0, Handler.compileUnary),
  ("-pedantic", 0, Handler.compileUnary),
  ("-x", 1, Handler.compileBinary),
  ("-g", 0, Handler.compileUnary),
  ("-g0", 0, Handler.compileUnary),
  ("-g1", 0, Handler.compileUnary),
  ("-g2", 0, Handler.compileUnary),
  ("-g3", 0, Handler.compileUnary),
  ("-ggdb", 0, Handler.compileUnary),
  ("-ggdb0", 0, Handler.compileUnary),
  ("-ggdb1", 0, Handler.compileUnary),
  ("-ggdb2", 0, Handler.compileUnary),
  ("-ggdb3", 0, Handler.compileUnary),
  ("-gdwarf", 0, Handler.compileUnary),
  ("-gdwarf-2", 0, Handler.compileUnary),
  ("-gdwarf-3", 0, Handler.compileUnary),
  ("-gdwarf-4", 0, Handler.compileUnary),
  ("-gline-tables-only", 0, Handler.compileUnary),
  ("-grecord-gcc-switches", 0, Handler.compileUnary),
  ("-ggnu-pubnames", 0, Handler.compileUnary),
  ("-p", 0, Handler.compileUnary),
  ("-pg", 0, Handler.compileUnary),
  ("-O", 0, Handler.compileUnary),
  ("-O0", 0, Handler.compileUnary),
  ("-O1", 0, Handler.compileUnary),
  ("-O2", 0, Handler.compileUnary),
  ("-O3", 0, Handler.compileUnary),
  ("-Os", 0, Handler.compileUnary),
  ("-Ofast", 0, Handler.compileUnary),
  ("-Og", 0, Handler.compileUnary),
  ("-Oz", 0, Handler.compileUnary),
  ("-Xclang", 1, Handler.compileBinary),
  ("-Xpreprocessor", 1, Handler.defaultBinary),
  ("-Xassembler", 1, Handler.defaultBinary),
  ("-Xlinker", 1, Handler.defaultBinary),
  ("-l", 1, Handler.linkBinary),
  ("-L", 1, Handler.linkBinary),
  ("-T", 1, Handler.linkBinary),
  ("-u", 1, Handler.linkBinary),
  ("-install_name", 1, Handler.linkBinary),
  ("-e", 1, Handler.linkBinary),
  ("-rpath", 1, Handler.linkBinary),
  ("-shared", 0, Handler.linkUnary),
  ("-static", 0, Handler.linkUnary),
  ("-static-libgcc", 0, Handler.linkUnary),
  ("-pie", 0, Handler.linkUnary),
  ("-nostdlib", 0, Handler.linkUnary),
  ("-nodefaultlibs", 0, Handler.linkUnary),
  ("-rdynamic", 0, Handler.linkUnary),
  ("-dynamiclib", 0, Handler.linkUnary),
  ("-current_version", 1, Handler.linkBinary),
  ("-compatibility_version", 1, Handler.linkBinary),
  ("-print-multi-directory", 0, Handler.compileUnary),
  ("-print-multi-lib", 0, Handler.compileUnary),
  ("-print-libgcc-file-name", 0, Handler.compileUnary),
  ("-print-search-dirs", 0, Handler.compileUnary),
  ("-fprofile-arcs", 0, Handler.compileLinkUnary),
  ("-coverage", 0, Handler.compileLinkUnary),
  ("--coverage", 0, Handler.compileLinkUnary),
  ("-fopenmp", 0, Handler.compileLinkUnary),
  ("-Wl,-dead_strip", 0, Handler.warningLinkUnary),
  ("-dead_strip", 0, Handler.warningLinkUnary)]

/-- `HashMap::get` on the exact table. -/
def lookupExact (arg : String) : Option (Nat × Handler) :=
  assocLookup arg exactArgMap

/-! ### The regex patterns of `arg_patterns`

Each anchored regex of the source is translated to a decidable predicate.
In the `regex` crate, `^`/`$` match the ends of the haystack and `.`
matches any character except `'\n'`; a negated class such as `[^l]` does
match `'\n'`.  Every extension alternation in the table is dot-free, so in
`^.+\.(a|b|…)$` the matched dot is necessarily the last dot of the
token. -/

/-- No newline anywhere in the string (what a `.*`/`.+` span requires). -/
def noNewline (s : String) : Bool :=
  !(s.data.contains '\n')

/-- `^PRE.*$` for a literal prefix `PRE`. -/
def matchPreStar (pre s : String) : Bool :=
  strStartsWith s pre && !(s.data.drop pre.data.length).contains '\n' 

/-- `^PRE.+$` for a literal prefix `PRE`. -/
def matchPrePlus (pre s : String) : Bool :=
  strStartsWith s pre && pre.data.length < s.data.length &&
    !(s.data.drop pre.data.length).contains '\n' 

/-- `^-W[^l].*$`. -/
def matchWNotL (s : String) : Bool :=
  strStartsWith s "-W" && 3 ≤ s.data.length && s.data.get? 2 ≠ some 'l' &&
    !(s.data.drop 3).contains '\n'

/-- `^-W[l][^,].*$`. -/
def matchWlNotComma (s : String) : Bool :=
  strStartsWith s "-Wl" && 4 ≤ s.data.length && s.data.get? 3 ≠ some ',' &&
    !(s.data.drop 4).contains '\n'

/-- Split a token at its last dot. -/
def lastDotSplit (l : List Char) : Option (List Char × List Char) :=
  match lastIndexOf '.' l with
  | none => none
  | some i => some (l.take i, l.drop (i + 1))

/-- `^.+\.(e₁|e₂|…)$` for dot-free literal extensions. -/
def matchDotExt (exts : List String) (s : String) : Bool :=
  match lastDotSplit s.data with
  | some (pre, ext) => pre ≠ [] && !pre.contains '\n' && exts.contains ⟨ext⟩
  | none => false

/-- The Fortran extension language `[fF](|[0-9][0-9]|or|OR|pp|PP)`. -/
def isFortranExt : List Char → Bool
  | [c] => c = 'f' || c = 'F'
  | [c, x, y] =>
    (c = 'f' || c = 'F') &&
      ((x.isDigit && y.isDigit) || (x = 'o' && y = 'r') || (x = 'O' && y = 'R') ||
        (x = 'p' && y = 'p') || (x = 'P' && y = 'P'))
  | _ => false

/-- `^.+\.([fF](|[0-9][0-9]|or|OR|pp|PP))$`. -/
def matchFortranSrc (s : String) : Bool :=
  match lastDotSplit s.data with
  | some (pre, ext) => pre ≠ [] && !pre.contains '\n' && isFortranExt ext
  | none => false

/-- Strip trailing `(\.\d)` groups from a REVERSED character list,
returning how many were stripped and the rest. -/
def stripVersionGroups : List Char → Nat × List Char
  | d :: '.' :: rest =>
    if d.isDigit then
      let (n, r) := stripVersionGroups rest
      (n + 1, r)
    else (0, d :: '.' :: rest)
  | l => (0, l)

/-- `^.+\.(b₁|b₂|…)(\.\d)+$` for dot-free bases: strip the maximal run of
version groups (the remainder cannot end in another group, so maximal
stripping is equivalent to the regex's existential split) and require a
`.base` suffix with a nonempty newline-free stem before it. -/
def matchVersionedLibs (bases : List String) (s : String) : Bool :=
  let (k, remRev) := stripVersionGroups s.data.reverse
  let rem := remRev.reverse
  decide (1 ≤ k) &&
    bases.any (fun b =>
      ('.' :: b.data).isSuffixOf rem && b.data.length + 1 < rem.length &&
        !(rem.take (rem.length - (b.data.length + 1))).contains '\n')

/-- `arg_patterns` (`src/constants.rs`): the ordered pattern list, as
`(predicate, arity, handler)` triples.  All pattern arities are 0. -/
def argPatterns : List ((String → Bool) × Nat × Handler) := [
  (matchPreStar "-MF", 0, Handler.compileUnary),
  (matchPreStar "-MJ", 0, Handler.compileUnary),
  (matchPreStar "-MQ", 0, Handler.compileUnary),
  (matchPreStar "-MT", 0, Handler.compileUnary),
  (matchPrePlus "-Wl,", 0, Handler.linkUnary),
  (matchWNotL, 0, Handler.compileUnary),
  (matchWlNotComma, 0, Handler.compileUnary),
  (fun s => matchPrePlus "-l" s || matchPrePlus "-L" s, 0, Handler.linkUnary),
  (matchPrePlus "-I", 0, Handler.compileUnary),
  (matchPrePlus "-D", 0, Handler.compileUnary),
  (matchPrePlus "-B", 0, Handler.compileLinkUnary),
  (matchPrePlus "-isystem", 0, Handler.compileLinkUnary),
  (matchPrePlus "-U", 0, Handler.compileUnary),
  (matchPrePlus "-fsanitize=", 0, Handler.compileLinkUnary),
  (matchPrePlus "-fuse-ld=", 0, Handler.linkUnary),
  (matchPrePlus "-flto=", 0, Handler.lto),
  (matchPrePlus "-f", 0, Handler.compileUnary),
  (matchPrePlus "-rtlib=", 0, Handler.linkUnary),
  (matchPrePlus "-std=", 0, Handler.compileUnary),
  (matchPrePlus "-stdlib=", 0, Handler.compileLinkUnary),
  (matchPrePlus "-mtune=", 0, Handler.compileUnary),
  (matchPrePlus "--sysroot=", 0, Handler.compileLinkUnary),
  (matchPreStar "-print-", 0, Handler.compileUnary),
  (matchPrePlus "-mmacosx-version-min=", 0, Handler.compileLinkUnary),
  (matchPrePlus "-mstack-alignment=", 0, Handler.compileUnary),
  (matchPrePlus "-march=", 0, Handler.compileUnary),
  (matchPrePlus "-mregparm=", 0, Handler.compileUnary),
  (matchPrePlus "-mcmodel=", 0, Handler.compileUnary),
  (matchPrePlus "-mpreferred-stack-boundary=", 0, Handler.compileUnary),
  (matchPrePlus "-mindirect-branch=", 0, Handler.compileUnary),
  (matchPrePlus "--param=", 0, Handler.compileUnary),
  (matchDotExt ["c", "cc", "cpp", "C", "cxx", "i", "s", "S", "bc"], 0, Handler.inputFile),
  (matchFortranSrc, 0, Handler.inputFile),
  (matchDotExt ["o", "lo", "So", "so", "po", "a", "dylib", "pico", "nossppico"],
    0, Handler.objectFile),
  (matchVersionedLibs ["dylib"], 0, Handler.objectFile),
  (matchVersionedLibs ["So", "so"], 0, Handler.objectFile)]

/-- Result of the `is_object_file` probe that the fallback branch of
`parse_args` runs on an unmatched token: `Ok(true)` (an existing,
parseable, relocatable object), `Ok(false)` (not a plain file, or parsed
but not relocatable), or `Err` (an existing file that could not be read or
parsed). -/
inductive ProbeResult where
  | isRelocObj
  | notRelocObj
  | probeFailed
deriving DecidableEq, Repr

/-- The scan loop of `parse_args`.  All indexing in the source is relative
to the cursor `i`, so the loop is modelled by recursion over the remaining
token suffix; `fuel` makes the recursion structural and is never exhausted
when it starts at `|argv|+1` (proved separately).  An exact match with
arity exceeding the remaining tokens is the out-of-bounds slice
`&args[i+1 .. i+1+arity]`, i.e. a panic.  The group search
`args[i..].iter().position(...)` can never hit `args[i]` itself (it is the
start marker), so it is the search in `tail`. -/
def parseLoop (probe : String → ProbeResult) :
    Nat → CompilerArgsInfo → List String → Outcome CompilerArgsInfo
  | 0, _, _ => .outOfFuel
  | _ + 1, info, [] => .ok info
  | fuel + 1, info, arg :: tail =>
    match lookupExact arg with
    | some (arity, h) =>
      if arity ≤ tail.length then
        parseLoop probe fuel (applyHandler info h arg (tail.take arity))
          (tail.drop arity)
      else .panicked
    | none =>
      if arg = "-Wl,--start-group" then
        match tail.findIdx? (fun x => x == "-Wl,--end-group") with
        | some j =>
          let span := arg :: tail.take (j + 1)
          parseLoop probe fuel { info with link_args := info.link_args ++ span }
            (tail.drop (j + 1))
        | none =>
          parseLoop probe fuel (applyHandler info .compileUnary arg []) tail
      else
        match argPatterns.find? (fun pat => pat.1 arg) with
        | some (_, _, h) => parseLoop probe fuel (applyHandler info h arg []) tail
        | none =>
          match probe arg with
          | .isRelocObj =>
            parseLoop probe fuel (applyHandler info .objectFile arg []) tail
          | .notRelocObj =>
            parseLoop probe fuel (applyHandler info .compileUnary arg []) tail
          | .probeFailed => .err .io

/-- `CompilerArgsInfo::parse_args`: record the original argv, then run the
scan loop. -/
def parse_args (probe : String → ProbeResult) (info : CompilerArgsInfo)
    (args : List String) : Outcome CompilerArgsInfo :=
  parseLoop probe (args.length + 1) { info with input_args := args } args

/-! ## Skip predicate, compile mode, and command reconstruction -/

/-- `CompilerArgsInfo::is_bitcode_generation_skipped` (`src/arg_parser.rs`):
fold over the nine `(condition, reason)` pairs, overwriting a single
`(is_skipped, message)` accumulator; the configuration flag
`rllvm_config().is_configure_only()` is passed explicitly. -/
def is_bitcode_generation_skipped (isConfigureOnly : Bool)
    (info : CompilerArgsInfo) : Bool :=
  let conditions : List (Bool × String) := [
    (isConfigureOnly, "we are in configure-only mode"),
    (info.input_files.isEmpty, "the list of input files is empty"),
    (info.is_emit_llvm, "the compiler will generate bitcode in emit-llvm mode"),
    (info.is_lto,
      "the compiler will generate bitcode during the link-time optimization"),
    (info.is_assembly, "the input file(s) are written in assembly"),
    (info.is_assemble_only,
      "we are only assembling, so cannot embed the path of the bitcode"),
    (info.is_dependency_only && !info.is_compile_only,
      "we are only computing dependencies"),
    (info.is_preprocess_only, "we are only preprocessing"),
    (info.is_print_only,
      "we are in print-only mode, so cannot embed the path of the bitcode")]
  (conditions.foldl (fun acc c => if c.1 then (true, c.2) else acc)
    (false, "no reason")).1

/-- `CompileMode` (`src/arg_parser.rs`). -/
inductive CompileMode where
  | compiling
  | linking
  | ltoMode
  | bitcodeGeneration
deriving DecidableEq, Repr

/-- `CompilerArgsInfo::mode`. -/
def compileModeOf (info : CompilerArgsInfo) : CompileMode :=
  if info.input_files.isEmpty && !info.link_args.isEmpty then
    if info.is_lto then .ltoMode else .linking
  else .compiling

/-- `CompilerWrapper::command` (`src/compiler_wrapper/wrapper.rs`): start
from the wrapped compiler path, append the configured LTO LDFLAGS when
linking with LTO, append the original argv, and finally (when the
forbidden set is nonempty) drop every token that occurs among the
forbidden flags.  `HashSet` membership over strings is list membership. -/
def command (wrappedCompiler : String) (ltoLdflags : Option (List String))
    (info : CompilerArgsInfo) : List String :=
  let args := [wrappedCompiler]
  let args :=
    if info.input_files.isEmpty && !info.link_args.isEmpty then
      if info.is_lto then
        match ltoLdflags with
        | some flags => args ++ flags
        | none => args
      else args
    else args
  let args := args ++ info.input_args
  if info.forbidden_flags.isEmpty then args
  else args.filter (fun x => !(info.forbidden_flags.contains x))

/-! ## Artifact path derivation (`src/utils/path_utils.rs`,
`CompilerArgsInfo::artifact_filepaths`) -/

/-- `derive_object_and_bitcode_filepath`: for an absolute source path with
a parent, a file name and a file stem, produce
`parent/(name.o | .stem.o)` and `parent/.stem.o.bc` (the `to_str`
conversions always succeed in the string model). -/
def derive_object_and_bitcode_filepath (srcFilepath : String)
    (isCompileOnly : Bool) : Outcome (String × String) :=
  if !rustIsAbsolute srcFilepath then .err .invalidArguments
  else
    match rpParent srcFilepath with
    | none => .err .invalidArguments
    | some parentDir =>
      match rpFileName srcFilepath with
      | none => .err .invalidArguments
      | some fileName =>
        match rpFileStem srcFilepath with
        | none => .err .invalidArguments
        | some fileStem =>
          let objectFileName :=
            if isCompileOnly then (⟨fileName⟩ : String) ++ ".o"
            else "." ++ (⟨fileStem⟩ : String) ++ ".o"
          let bitcodeFileName := "." ++ (⟨fileStem⟩ : String) ++ ".o.bc"
          .ok (rpJoin parentDir objectFileName, rpJoin parentDir bitcodeFileName)

/-- Modelled from the spec: `calculate_filepath_hash`
(`src/utils/path_utils.rs`) delegates to the standard library
`DefaultHasher` (SipHash-1-3 with fixed zero keys), which is external to
the repository; §4.2 of the specification only requires "an
implementation-chosen 64-bit hash of the path bytes", stable across
invocations.  The model uses FNV-1a 64 over the path's code points as a
concrete deterministic stand-in with the same interface; no verified
property depends on particular hash values. -/
def defaultHasherModel (p : String) : Nat :=
  p.data.foldl (fun h c => ((h ^^^ c.toNat) * 1099511628211) % 2 ^ 64)
    14695981039346656037

/-- `calculate_filepath_hash` over the model hasher. -/
def calculate_filepath_hash (p : String) : Nat :=
  defaultHasherModel p

/-- The bitcode-path computation of `CompilerArgsInfo::artifact_filepaths`
(`src/arg_parser.rs`, lines 494-533) for one input source, starting after
`canonicalize` (the call site and the claim supply a canonical absolute
path).  When a bitcode store directory is configured and exists and the
derived bitcode path has a file name, the file name is rebased to
`{bitcode_file_stem}_{src_filepath_hash}.{bitcode_file_ext}` under the
store; `format!("{…}")` renders the `u64` hash in decimal.  The two
`unwrap`s on stem and extension cannot fire: the derived name
`.stem.o.bc` always has both. -/
def artifactBitcodeFilepath (bitcodeStorePath : Option String)
    (storeExists : Bool) (isCompileOnly : Bool) (srcFilepath : String) :
    Outcome String := do
  let (_objectFilepath, bitcodeFilepath) ←
    derive_object_and_bitcode_filepath srcFilepath isCompileOnly
  match bitcodeStorePath with
  | some store =>
    if storeExists then
      match rpFileName bitcodeFilepath with
      | some _ =>
        let srcFilepathHash := calculate_filepath_hash srcFilepath
        let bitcodeFileStem := (rpFileStem bitcodeFilepath).getD []
        let bitcodeFileExt := (rpExtension bitcodeFilepath).getD []
        let newBitcodeFilename :=
          (⟨bitcodeFileStem⟩ : String) ++ "_" ++ toString srcFilepathHash ++
            "." ++ (⟨bitcodeFileExt⟩ : String)
        .ok (rpJoin store newBitcodeFilename)
      | none => .ok bitcodeFilepath
    else .ok bitcodeFilepath
  | none => .ok bitcodeFilepath

/-! ## Spec-side definitions

The following definitions transcribe claim sentences (not the source);
each is compared against the corresponding source-derived definition in
the theorems below. -/

/-- The extraction pipeline exactly as the claim under test words it:
trim, split on `'\n'`, map each NONEMPTY line to a path, sort
lexicographically (as strings), deduplicate adjacent equals. -/
def extractSpecClaimPipeline (payload : String) : List String :=
  let lines := (splitOnChar '\n' (rustTrimList payload.data)).filter
    (fun l => l ≠ [])
  let paths : List String := lines.map (fun l => ⟨l⟩)
  dedupAdj (fun a b => a == b)
    (sortStable (fun a b => !(listCharLt b.data a.data)) paths)

/-- The amended extraction pipeline: every line (empty ones included)
becomes a path, the sort is the stable sort in Rust's component-wise path
order, and adjacent deduplication uses path equality. -/
def extractAmendedPipeline (payload : String) : List String :=
  dedupAdj pathEqB
    (sortStable pathLeB
      ((splitOnChar '\n' (rustTrimList payload.data)).map (fun l => ⟨l⟩)))

/-- A hexadecimal digit. -/
def hexDigit (n : Nat) : Char :=
  if n < 10 then Char.ofNat (48 + n) else Char.ofNat (87 + n)

/-- `hex16`: a 64-bit value as 16 hexadecimal digits (the claim's
rendering). -/
def hex16 (n : Nat) : String :=
  ⟨((List.range 16).reverse.map (fun i => hexDigit (n / 16 ^ i % 16)))⟩

/-- The store-rebasing formula exactly as claim C8 words it:
`store / (stem + "_" + hex16(hash(src_abs)) + ".bc")` with `stem` the
SOURCE file name without extension. -/
def bitcodeStorePathSpecClaim (store src : String) : String :=
  rpJoin store ((⟨(rpFileStem src).getD []⟩ : String) ++ "_" ++
    hex16 (calculate_filepath_hash src) ++ ".bc")

/-! ## Concrete fixtures for evaluations -/

/-- A minimal relocatable ELF object (one text section, one defined symbol,
no relocations), used by the concrete evaluations. -/
def demoElfObject : ObjFile :=
  { format := .elf, architecture := 62, endianness := 0, kind := .relocatable,
    flags := 0,
    sections := [
      { segmentName := "", name := ".text", kind := .text, address := 0,
        size := 4, align := 4, data := "code", relocs := [],
        flags := .elfFlags 6 }],
    symbols := [
      { name := "main", address := 0, size := 4, kind := 1, scope := 2,
        weak := false, sectionRef := .sectionSec 0, flags := .elfSym 18 0 }],
    comdats := [] }

/-- A relocatable ELF object that already carries a `.llvm_bc` section with
a payload exercising empty lines and the path order, used by the
extraction counterexample. -/
def c6CounterObject : ObjFile :=
  { format := .elf, architecture := 62, endianness := 0, kind := .relocatable,
    flags := 0,
    sections := [
      { segmentName := "", name := ".llvm_bc", kind := .unknownSection,
        address := 0, size := 12, align := 1, data := "a/b\na-b\n\nx",
        relocs := [], flags := .elfFlags 0 }],
    symbols := [], comdats := [] }

/-- Extract the payload of a successful outcome, with a default. -/
def outcomeGetD {α : Type} (x : Outcome α) (dflt : α) : α :=
  match x with
  | .ok a => a
  | _ => dflt

/-! ## Supporting lemmas -/

@[simp]
theorem Outcome.bind_ok_left {α β : Type} (a : α) (f : α → Outcome β) :
    (Outcome.ok a : Outcome α) >>= f = f a := rfl

@[simp]
theorem Outcome.bind_err_left {α β : Type} (e : RError) (f : α → Outcome β) :
    (Outcome.err e : Outcome α) >>= f = .err e := rfl

@[simp]
theorem Outcome.bind_panicked_left {α β : Type} (f : α → Outcome β) :
    (Outcome.panicked : Outcome α) >>= f = .panicked := rfl

@[simp]
theorem Outcome.bind_outOfFuel_left {α β : Type} (f : α → Outcome β) :
    (Outcome.outOfFuel : Outcome α) >>= f = .outOfFuel := rfl

@[simp]
theorem Outcome.pure_eq_ok {α : Type} (a : α) :
    (pure a : Outcome α) = .ok a := rfl

@[simp]
theorem Outcome.map_ok {α β : Type} (f : α → β) (a : α) :
    (Outcome.ok a).map f = .ok (f a) := rfl

theorem skip_foldl_any (l : List (Bool × String)) (acc : Bool × String) :
    (l.foldl (fun acc c => if c.1 then (true, c.2) else acc) acc).1 =
      (acc.1 || l.any (fun c => c.1)) := by
  induction l generalizing acc with
  | nil => simp
  | cons c rest ih =>
    rcases hc : c.1 with _ | _ <;> simp [List.foldl_cons, hc, ih]

/-- C2: `is_bitcode_generation_skipped` returns true exactly when one of the
nine enumerated conditions holds: configure-only mode, empty input list,
`emit_llvm`, `lto`, assembly input, assemble-only, dependency-only without
compile-only, preprocess-only, or print-only. -/
theorem c2_skip_predicate_iff (isConfigureOnly : Bool) (info : CompilerArgsInfo) :
    is_bitcode_generation_skipped isConfigureOnly info =
      (isConfigureOnly || info.input_files.isEmpty || info.is_emit_llvm ||
        info.is_lto || info.is_assembly || info.is_assemble_only ||
        (info.is_dependency_only && !info.is_compile_only) ||
        info.is_preprocess_only || info.is_print_only) := by
  simp only [is_bitcode_generation_skipped]
  rw [skip_foldl_any]
  simp [Bool.or_assoc]

/-- C9: the native command line equals the wrapped compiler path, then the
configured LTO LDFLAGS exactly when `input_files` is empty, `link_args` is
nonempty and `lto` is set, then the original argv tokens in order, with
every token that occurs among `forbidden_flags` removed from the assembled
sequence. -/
theorem c9_command_reconstruction (wrappedCompiler : String)
    (ltoLdflags : Option (List String)) (info : CompilerArgsInfo) :
    command wrappedCompiler ltoLdflags info =
      (wrappedCompiler ::
        ((if info.input_files.isEmpty && !info.link_args.isEmpty && info.is_lto
            then ltoLdflags.getD [] else []) ++ info.input_args)).filter
        (fun tok => !(info.forbidden_flags.contains tok)) := by
  unfold command
  rcases ltoLdflags with _ | flags <;>
    cases hin : info.input_files.isEmpty <;>
      cases hlk : info.link_args.isEmpty <;>
        cases hlto : info.is_lto <;>
          cases hff : info.forbidden_flags <;>
            simp [hin, hlk, hlto, hff]

/-- C4 (failing input evaluation): embedding the absolute path
`/tmp/hello.bc` stores the path bytes WITHOUT a trailing newline, while
the relative branch does append one — the payload is not uniformly
newline-terminated as the claim states. -/
theorem c4_embedded_content_at_failing_input :
    (embed_bitcode_filepath_to_object_file "/w" "/tmp/hello.bc" "in.o" none
        demoElfObject).map
        (fun r => r.1.sections.getLast?.map (fun s => s.data)) =
      .ok (some (some "/tmp/hello.bc")) ∧
    ("/tmp/hello.bc" : String) ≠ "/tmp/hello.bc" ++ "\n" ∧
    bitcodeFilepathString "/w" "hello.bc" = "/w/hello.bc" ++ "\n" := by
  decide

/-- C1 (counterexample): embedding the absolute path `/tmp/b\n/tmp/a`,
which contains a newline, and extracting yields the two paths `/tmp/a`
and `/tmp/b`, not the singleton of the embedded path. -/
theorem c1_roundtrip_counterexample :
    (embed_bitcode_filepath_to_object_file "/w" "/tmp/b\n/tmp/a" "in.o" none
        demoElfObject).map
        (fun r => extract_bitcode_filepaths_from_object_file r.1) =
      .ok (.ok ["/tmp/a", "/tmp/b"]) ∧
    (["/tmp/a", "/tmp/b"] : List String) ≠ ["/tmp/b\n/tmp/a"] := by
  decide

/-- C3 (counterexample): `parse_args` on `["-o"]`, whose arity-1 parameter
is missing, panics (out-of-bounds slice) instead of returning an
`InvalidArguments` error. -/
theorem c3_missing_param_counterexample :
    parse_args (fun _ => ProbeResult.notRelocObj) {} ["-o"] = .panicked ∧
    parse_args (fun _ => ProbeResult.notRelocObj) {} ["-o"] ≠
      .err .invalidArguments := by
  decide

/-- C5 (counterexample): embedding with the output path omitted performs
exactly one direct `fs::write` to the input path itself — no temporary
file and no rename appear in the filesystem trace. -/
theorem c5_atomicity_counterexample :
    (embed_bitcode_filepath_to_object_file "/w" "/tmp/x.bc" "in.o" none
        demoElfObject).map (fun r => r.2) =
      .ok [FsOp.writeFile "in.o"] := by
  decide

/-- C6 (counterexample): on a payload with an empty line and the pair
`a/b`, `a-b`, the code keeps the empty line and sorts in `PathBuf`
(component-wise) order, so the result differs from the claim's pipeline
(nonempty lines, string-lexicographic sort). -/
theorem c6_extraction_counterexample :
    extract_bitcode_filepaths_from_parsed_object c6CounterObject =
      .ok ["", "a/b", "a-b", "x"] ∧
    extractSpecClaimPipeline "a/b\na-b\n\nx" = ["a-b", "a/b", "x"] ∧
    extract_bitcode_filepaths_from_parsed_object c6CounterObject ≠
      .ok (extractSpecClaimPipeline "a/b\na-b\n\nx") := by
  decide

/-- C8 (counterexample): for source `/tmp/foo.c` with store `/store`, the
rebased path is `/store/.foo.o_<decimal hash>.bc` — the stem is the hidden
bitcode file stem `.foo.o`, not the source stem `foo`, and the hash is
rendered in decimal — which differs from the claim's
`store/(stem + "_" + hex16(hash) + ".bc")`. -/
theorem c8_store_path_counterexample :
    artifactBitcodeFilepath (some "/store") true false "/tmp/foo.c" =
      .ok ("/store/.foo.o_" ++
        toString (calculate_filepath_hash "/tmp/foo.c") ++ ".bc") ∧
    artifactBitcodeFilepath (some "/store") true false "/tmp/foo.c" ≠
      .ok (bitcodeStorePathSpecClaim "/store" "/tmp/foo.c") := by
  decide

theorem lookupExact_start_group :
    lookupExact "-Wl,--start-group" = none := by decide

/-- One step of the scan loop at a `-Wl,--start-group` token whose matching
end marker sits at index `j` of the remaining tokens: the whole inclusive
span is appended to `link_args` and scanning resumes right after the end
marker. -/
theorem parseLoop_group_step (probe : String → ProbeResult) (fuel : Nat)
    (info : CompilerArgsInfo) (tail : List String) (j : Nat)
    (hj : tail.findIdx? (fun x => x == "-Wl,--end-group") = some j) :
    parseLoop probe (fuel + 1) info ("-Wl,--start-group" :: tail) =
      parseLoop probe fuel
        { info with link_args :=
            info.link_args ++ ("-Wl,--start-group" :: tail.take (j + 1)) }
        (tail.drop (j + 1)) := by
  simp [parseLoop, lookupExact_start_group, hj]

/-- One step of the scan loop at a `-Wl,--start-group` token with no
matching end marker: the start marker alone is routed as a compile-unary
flag and scanning continues with the next token. -/
theorem parseLoop_group_step_missing (probe : String → ProbeResult) (fuel : Nat)
    (info : CompilerArgsInfo) (tail : List String)
    (hj : tail.findIdx? (fun x => x == "-Wl,--end-group") = none) :
    parseLoop probe (fuel + 1) info ("-Wl,--start-group" :: tail) =
      parseLoop probe fuel
        { info with compile_args := info.compile_args ++ ["-Wl,--start-group"] }
        tail := by
  simp [parseLoop, lookupExact_start_group, hj, applyHandler]

/-- C7: when `argv[i] = "-Wl,--start-group"` and a matching end marker
occurs later, the entire inclusive span is appended, in original order, to
`link_args` and parsing resumes after the end marker; when no matching end
marker exists, the start marker alone is appended to `compile_args` and
parsing continues without error. -/
theorem c7_linker_group_routing (probe : String → ProbeResult) (fuel : Nat)
    (info : CompilerArgsInfo) (tail : List String) :
    (∀ j, tail.findIdx? (fun x => x == "-Wl,--end-group") = some j →
      parseLoop probe (fuel + 1) info ("-Wl,--start-group" :: tail) =
        parseLoop probe fuel
          { info with link_args :=
              info.link_args ++ ("-Wl,--start-group" :: tail.take (j + 1)) }
          (tail.drop (j + 1))) ∧
    (tail.findIdx? (fun x => x == "-Wl,--end-group") = none →
      parseLoop probe (fuel + 1) info ("-Wl,--start-group" :: tail) =
        parseLoop probe fuel
          { info with compile_args := info.compile_args ++ ["-Wl,--start-group"] }
          tail) :=
  ⟨fun j hj => parseLoop_group_step probe fuel info tail j hj,
   fun hj => parseLoop_group_step_missing probe fuel info tail hj⟩

/-- Witness for C7 at the spec's own scenario
`["-Wl,--start-group", "x.o", "y.o", "-Wl,--end-group", "z.c"]` (found
case, the 4-token span routed as a block) and at a groupless tail (missing
case). -/
theorem c7_linker_group_routing_witness :
    (parseLoop (fun _ => ProbeResult.notRelocObj) 5 {}
        ("-Wl,--start-group" :: ["x.o", "y.o", "-Wl,--end-group", "z.c"]) =
      parseLoop (fun _ => ProbeResult.notRelocObj) 4
        { ({} : CompilerArgsInfo) with link_args :=
            ({} : CompilerArgsInfo).link_args ++
              ("-Wl,--start-group" ::
                ["x.o", "y.o", "-Wl,--end-group", "z.c"].take 3) }
        (["x.o", "y.o", "-Wl,--end-group", "z.c"].drop 3)) ∧
    (parseLoop (fun _ => ProbeResult.notRelocObj) 2 {}
        ("-Wl,--start-group" :: ["x.o"]) =
      parseLoop (fun _ => ProbeResult.notRelocObj) 1
        { ({} : CompilerArgsInfo) with compile_args :=
            ({} : CompilerArgsInfo).compile_args ++ ["-Wl,--start-group"] }
        ["x.o"]) :=
  ⟨(c7_linker_group_routing (fun _ => ProbeResult.notRelocObj) 4 {}
      ["x.o", "y.o", "-Wl,--end-group", "z.c"]).1 2 (by decide),
   (c7_linker_group_routing (fun _ => ProbeResult.notRelocObj) 1 {}
      ["x.o"]).2 (by decide)⟩

/-- C10: the step taken at a grouped span changes only `link_args` (by the
inclusive span, as one contiguous block); member tokens are classified by
no handler: input files, object files, the output name, the other buckets
and every mode bit are untouched, and parsing resumes after the end
marker. -/
theorem c10_group_members_not_classified (probe : String → ProbeResult)
    (fuel : Nat) (info : CompilerArgsInfo) (tail : List String) (j : Nat)
    (hj : tail.findIdx? (fun x => x == "-Wl,--end-group") = some j) :
    ∃ info', parseLoop probe (fuel + 1) info ("-Wl,--start-group" :: tail) =
        parseLoop probe fuel info' (tail.drop (j + 1)) ∧
      info'.link_args =
        info.link_args ++ ("-Wl,--start-group" :: tail.take (j + 1)) ∧
      info'.input_files = info.input_files ∧
      info'.object_files = info.object_files ∧
      info'.output_filename = info.output_filename ∧
      info'.compile_args = info.compile_args ∧
      info'.forbidden_flags = info.forbidden_flags ∧
      info'.input_args = info.input_args ∧
      info'.is_verbose = info.is_verbose ∧
      info'.is_dependency_only = info.is_dependency_only ∧
      info'.is_preprocess_only = info.is_preprocess_only ∧
      info'.is_assemble_only = info.is_assemble_only ∧
      info'.is_assembly = info.is_assembly ∧
      info'.is_compile_only = info.is_compile_only ∧
      info'.is_emit_llvm = info.is_emit_llvm ∧
      info'.is_lto = info.is_lto ∧
      info'.is_print_only = info.is_print_only :=
  ⟨_, parseLoop_group_step probe fuel info tail j hj, rfl, rfl, rfl, rfl, rfl,
    rfl, rfl, rfl, rfl, rfl, rfl, rfl, rfl, rfl, rfl, rfl⟩

/-- Witness for C10 at the spec scenario argv. -/
theorem c10_group_members_not_classified_witness :
    ∃ info', parseLoop (fun _ => ProbeResult.notRelocObj) 5 {}
        ("-Wl,--start-group" :: ["x.o", "y.o", "-Wl,--end-group", "z.c"]) =
        parseLoop (fun _ => ProbeResult.notRelocObj) 4 info'
          (["x.o", "y.o", "-Wl,--end-group", "z.c"].drop 3) ∧
      info'.link_args =
        ({} : CompilerArgsInfo).link_args ++
          ("-Wl,--start-group" ::
            ["x.o", "y.o", "-Wl,--end-group", "z.c"].take 3) ∧
      info'.input_files = ({} : CompilerArgsInfo).input_files ∧
      info'.object_files = ({} : CompilerArgsInfo).object_files ∧
      info'.output_filename = ({} : CompilerArgsInfo).output_filename ∧
      info'.compile_args = ({} : CompilerArgsInfo).compile_args ∧
      info'.forbidden_flags = ({} : CompilerArgsInfo).forbidden_flags ∧
      info'.input_args = ({} : CompilerArgsInfo).input_args ∧
      info'.is_verbose = ({} : CompilerArgsInfo).is_verbose ∧
      info'.is_dependency_only = ({} : CompilerArgsInfo).is_dependency_only ∧
      info'.is_preprocess_only = ({} : CompilerArgsInfo).is_preprocess_only ∧
      info'.is_assemble_only = ({} : CompilerArgsInfo).is_assemble_only ∧
      info'.is_assembly = ({} : CompilerArgsInfo).is_assembly ∧
      info'.is_compile_only = ({} : CompilerArgsInfo).is_compile_only ∧
      info'.is_emit_llvm = ({} : CompilerArgsInfo).is_emit_llvm ∧
      info'.is_lto = ({} : CompilerArgsInfo).is_lto ∧
      info'.is_print_only = ({} : CompilerArgsInfo).is_print_only :=
  c10_group_members_not_classified (fun _ => ProbeResult.notRelocObj) 4 {}
    ["x.o", "y.o", "-Wl,--end-group", "z.c"] 2 (by decide)

/-- C3 (amended): reaching an arity-1 exact flag as the final remaining
token makes `parse_args` panic (the parameter slice is out of bounds)
rather than return an `InvalidArguments` error; on every argv the scan
loop never exhausts the fuel bound (it consumes at least one token per
step, so it terminates), and when the object-file fallback probe never
fails the result is a parsed record or that panic — never an error. -/
theorem c3_parse_totality_amended :
    (∀ (probe : String → ProbeResult) (info : CompilerArgsInfo) (arg : String)
        (arity : Nat) (h : Handler) (fuel : Nat),
        lookupExact arg = some (arity, h) → 1 ≤ arity →
        parseLoop probe (fuel + 1) info [arg] = .panicked) ∧
    (∀ (probe : String → ProbeResult) (fuel : Nat) (args : List String)
        (info : CompilerArgsInfo), args.length < fuel →
        (parseLoop probe fuel info args ≠ .outOfFuel ∧
          ((∀ a, probe a ≠ .probeFailed) →
            parseLoop probe fuel info args = .panicked ∨
              ∃ res, parseLoop probe fuel info args = .ok res))) := by
  constructor
  · intro probe info arg arity h fuel hlk harity
    simp only [parseLoop, hlk]
    rw [if_neg (by simp only [List.length_nil]; omega)]
  · intro probe fuel
    induction fuel with
    | zero => intro args info hlen; omega
    | succ fuel ih =>
      intro args info hlen
      match args with
      | [] =>
        exact ⟨by simp [parseLoop], fun _ => .inr ⟨info, by simp [parseLoop]⟩⟩
      | arg :: tail =>
        have hlen' : tail.length < fuel := by
          simp only [List.length_cons] at hlen; omega
        cases hlk : lookupExact arg with
        | some p =>
          obtain ⟨arity, hd⟩ := p
          by_cases harr : arity ≤ tail.length
          · have hrec := ih (tail.drop arity) (applyHandler info hd arg (tail.take arity))
              (by simp only [List.length_drop]; omega)
            simpa only [parseLoop, hlk, if_pos harr] using hrec
          · constructor
            · simp only [parseLoop, hlk, if_neg harr]; simp
            · exact fun _ => .inl (by simp only [parseLoop, hlk, if_neg harr])
        | none =>
          by_cases hsg : arg = "-Wl,--start-group"
          · subst hsg
            cases hj : tail.findIdx? (fun x => x == "-Wl,--end-group") with
            | some j =>
              have hrec := ih (tail.drop (j + 1))
                { info with link_args :=
                    info.link_args ++ ("-Wl,--start-group" :: tail.take (j + 1)) }
                (by simp only [List.length_drop]; omega)
              simpa only [parseLoop_group_step probe fuel info tail j hj] using hrec
            | none =>
              have hrec := ih tail
                { info with compile_args :=
                    info.compile_args ++ ["-Wl,--start-group"] } hlen'
              simpa only [parseLoop_group_step_missing probe fuel info tail hj]
                using hrec
          · cases hpat : argPatterns.find? (fun pat => pat.1 arg) with
            | some q =>
              obtain ⟨pred, arity, hd⟩ := q
              have hrec := ih tail (applyHandler info hd arg []) hlen'
              simpa only [parseLoop, hlk, if_neg hsg, hpat] using hrec
            | none =>
              cases hp : probe arg with
              | isRelocObj =>
                have hrec := ih tail (applyHandler info .objectFile arg []) hlen'
                simpa only [parseLoop, hlk, if_neg hsg, hpat, hp] using hrec
              | notRelocObj =>
                have hrec := ih tail (applyHandler info .compileUnary arg []) hlen'
                simpa only [parseLoop, hlk, if_neg hsg, hpat, hp] using hrec
              | probeFailed =>
                refine ⟨?_, fun hprobe => absurd hp (hprobe arg)⟩
                simp only [parseLoop, hlk, if_neg hsg, hpat, hp]
                simp

/-- Witness for C3 at `["-o"]` (panic) and `["-c", "foo.c"]` (a record). -/
theorem c3_parse_totality_amended_witness :
    parseLoop (fun _ => ProbeResult.notRelocObj) 1 {} ["-o"] = .panicked ∧
    (parseLoop (fun _ => ProbeResult.notRelocObj) 3 {} ["-c", "foo.c"] =
        .panicked ∨
      ∃ res, parseLoop (fun _ => ProbeResult.notRelocObj) 3 {} ["-c", "foo.c"] =
        .ok res) :=
  ⟨c3_parse_totality_amended.1 (fun _ => ProbeResult.notRelocObj) {} "-o" 1
      Handler.outputFile 0 (by decide) (by decide),
   (c3_parse_totality_amended.2 (fun _ => ProbeResult.notRelocObj) 3
      ["-c", "foo.c"] {} (by decide)).2 (fun a => by decide)⟩

/-- C6 (amended): for every parsed object of a supported format, extraction
returns the empty sequence when the bitcode section is absent; when present,
the result is: decode, trim surrounding whitespace, split on `'\n'`, map
EVERY line (empty ones included) to a path, stable-sort in Rust's
component-wise path order, and remove adjacent path-equal duplicates. -/
theorem c6_extraction_amended (o : ObjFile) (n : String)
    (hn : bitcodeSectionNameFor o.format = .ok n) :
    extract_bitcode_filepaths_from_parsed_object o =
      .ok (match o.sections.find? (fun s => s.name == n) with
           | some sec => extractAmendedPipeline sec.data
           | none => []) := by
  unfold extract_bitcode_filepaths_from_parsed_object
  rw [hn]
  simp only [Outcome.bind_ok_left]
  cases hfind : o.sections.find? (fun s => s.name == n) <;>
    simp [extractAmendedPipeline]

/-- Witness for C6 at a concrete ELF object carrying a bitcode section. -/
theorem c6_extraction_amended_witness :
    extract_bitcode_filepaths_from_parsed_object c6CounterObject =
      .ok (match c6CounterObject.sections.find?
            (fun s => s.name == ".llvm_bc") with
           | some sec => extractAmendedPipeline sec.data
           | none => []) :=
  c6_extraction_amended c6CounterObject ".llvm_bc" (by decide)

/-- C5 (amended): with the output path omitted, a successful embed performs
exactly one filesystem write, directly to the input path (no temporary
file, no rename); a failure before the write leaves the input unchanged, but the
write itself is in place and not atomic. -/
theorem c5_direct_overwrite_amended (cwd bitcodePath objectPath : String)
    (o : ObjFile) (res : WObject × List FsOp)
    (hembed : embed_bitcode_filepath_to_object_file cwd bitcodePath objectPath
        none o = .ok res) :
    res.2 = [FsOp.writeFile objectPath] := by
  unfold embed_bitcode_filepath_to_object_file at hembed
  cases hfmt : sectionParamsFor o.format with
  | ok t =>
    obtain ⟨seg, nm, fl⟩ := t
    rw [hfmt] at hembed
    simp only [Outcome.bind_ok_left] at hembed
    cases hcopy : copy_object_file o with
    | ok w =>
      rw [hcopy] at hembed
      simp only [Outcome.bind_ok_left] at hembed
      cases hembed
      rfl
    | err e => rw [hcopy] at hembed; simp at hembed
    | panicked => rw [hcopy] at hembed; simp at hembed
    | outOfFuel => rw [hcopy] at hembed; simp at hembed
  | err e => rw [hfmt] at hembed; simp at hembed
  | panicked => rw [hfmt] at hembed; simp at hembed
  | outOfFuel => rw [hfmt] at hembed; simp at hembed

/-- Witness for C5 at a concrete embed into the demo ELF object. -/
theorem c5_direct_overwrite_amended_witness :
    (outcomeGetD (embed_bitcode_filepath_to_object_file "/w" "/tmp/x.bc" "in.o"
        none demoElfObject) (⟨.elf, 0, 0, 0, [], [], []⟩, [])).2 =
      [FsOp.writeFile "in.o"] :=
  c5_direct_overwrite_amended "/w" "/tmp/x.bc" "in.o" demoElfObject _ (by decide)

theorem splitOnChar_ne_nil (c : Char) (l : List Char) : splitOnChar c l ≠ [] := by
  cases l with
  | nil => simp [splitOnChar]
  | cons a as =>
    simp only [splitOnChar]
    by_cases hac : a = c <;> simp [hac]

theorem splitOnChar_append_cons (c : Char) (xs ys : List Char) :
    splitOnChar c (xs ++ c :: ys) = splitOnChar c xs ++ splitOnChar c ys := by
  induction xs with
  | nil => simp [splitOnChar]
  | cons a as ih =>
    by_cases hac : a = c
    · simp [splitOnChar, hac, ih]
    · obtain ⟨y, ys', hsp⟩ : ∃ y ys', splitOnChar c as = y :: ys' := by
        cases h : splitOnChar c as with
        | nil => exact absurd h (splitOnChar_ne_nil c as)
        | cons y ys' => exact ⟨y, ys', rfl⟩
      simp [splitOnChar, hac, ih, hsp]

theorem splitOnChar_of_not_mem (c : Char) (l : List Char) (h : c ∉ l) :
    splitOnChar c l = [l] := by
  induction l with
  | nil => rfl
  | cons a as ih =>
    rw [List.mem_cons, not_or] at h
    have hca : a ≠ c := fun hh => h.1 hh.symm
    simp [splitOnChar, hca, ih h.2]

theorem lastIndexOf_eq_none (c : Char) (l : List Char) (h : c ∉ l) :
    lastIndexOf c l = none := by
  induction l with
  | nil => rfl
  | cons a as ih =>
    rw [List.mem_cons, not_or] at h
    have hca : a ≠ c := fun hh => h.1 hh.symm
    simp [lastIndexOf, hca, ih h.2]

theorem lastIndexOf_append_cons (c : Char) (xs ys : List Char) (hy : c ∉ ys) :
    lastIndexOf c (xs ++ c :: ys) = some xs.length := by
  induction xs with
  | nil => simp [lastIndexOf, lastIndexOf_eq_none c ys hy]
  | cons a as ih => simp [lastIndexOf, ih]

theorem pathComponents_two_level (d body : List Char)
    (hd1 : '/' ∉ d) (hd2 : d ≠ []) (hd3 : d ≠ ['.']) (hd4 : d ≠ ['.', '.'])
    (hb1 : '/' ∉ body) (hb2 : body ≠ []) (hb3 : body ≠ ['.'])
    (hb4 : body ≠ ['.', '.']) :
    pathComponents ⟨'/' :: (d ++ '/' :: body)⟩ =
      [RComponent.rootDir, RComponent.normal d, RComponent.normal body] := by
  have hp : splitOnChar '/' ('/' :: (d ++ '/' :: body)) = [[], d, body] := by
    have h0 : ('/' : Char) :: (d ++ '/' :: body) =
        ([] : List Char) ++ '/' :: (d ++ '/' :: body) := rfl
    rw [h0, splitOnChar_append_cons, splitOnChar_append_cons,
      splitOnChar_of_not_mem _ _ hd1, splitOnChar_of_not_mem _ _ hb1]
    rfl
  simp only [pathComponents, hp]
  simp [piecesToComps, hd2, hd3, hd4, hb2, hb3, hb4]

theorem splitFileAtDot_append (s e : List Char) (hs : s ≠ []) (he1 : '.' ∉ e)
    (he2 : e ≠ []) :
    splitFileAtDot (s ++ '.' :: e) = (s, some e) := by
  have hslen : 0 < s.length := List.length_pos.mpr hs
  have helen : 0 < e.length := List.length_pos.mpr he2
  have hne : s ++ '.' :: e ≠ ['.', '.'] := by
    intro h
    have := congrArg List.length h
    simp [List.length_append] at this
    omega
  have ht : (s ++ '.' :: e).take s.length = s := List.take_left s ('.' :: e)
  have hd : (s ++ '.' :: e).drop (s.length + 1) = e := by
    have hsplit : s ++ '.' :: e = (s ++ ['.']) ++ e := by simp
    have hlen : (s ++ ['.']).length = s.length + 1 := by simp
    rw [hsplit, ← hlen, List.drop_left]
  cases hl : s.length with
  | zero => exact absurd (List.length_eq_zero.mp hl) hs
  | succ n =>
    simp only [splitFileAtDot, if_neg hne,
      lastIndexOf_append_cons '.' s e he1, hl]
    rw [← hl, ht, hd]

theorem rustIsAbsolute_cons_slash (l : List Char) :
    rustIsAbsolute ⟨'/' :: l⟩ = true := by
  simp [rustIsAbsolute, strStartsWith, List.isPrefixOf]

theorem rpFileName_two_level (d body : List Char)
    (hd1 : '/' ∉ d) (hd2 : d ≠ []) (hd3 : d ≠ ['.']) (hd4 : d ≠ ['.', '.'])
    (hb1 : '/' ∉ body) (hb2 : body ≠ []) (hb3 : body ≠ ['.'])
    (hb4 : body ≠ ['.', '.']) :
    rpFileName ⟨'/' :: (d ++ '/' :: body)⟩ = some body := by
  simp [rpFileName,
    pathComponents_two_level d body hd1 hd2 hd3 hd4 hb1 hb2 hb3 hb4]

theorem rpParent_two_level (d body : List Char)
    (hd1 : '/' ∉ d) (hd2 : d ≠ []) (hd3 : d ≠ ['.']) (hd4 : d ≠ ['.', '.'])
    (hb1 : '/' ∉ body) (hb2 : body ≠ []) (hb3 : body ≠ ['.'])
    (hb4 : body ≠ ['.', '.']) :
    rpParent ⟨'/' :: (d ++ '/' :: body)⟩ = some ⟨'/' :: d⟩ := by
  simp [rpParent,
    pathComponents_two_level d body hd1 hd2 hd3 hd4 hb1 hb2 hb3 hb4,
    renderComps, joinSlash, compStr]

theorem rpJoin_abs_dir (d : List Char) (name : String) (hd1 : '/' ∉ d)
    (hd2 : d ≠ []) (hab : rustIsAbsolute name = false) :
    rpJoin ⟨'/' :: d⟩ name = ⟨'/' :: (d ++ '/' :: name.data)⟩ := by
  obtain ⟨y, t, hr, hy⟩ : ∃ y t, d.reverse = y :: t ∧ y ≠ '/' := by
    cases hrv : d.reverse with
    | nil => exact absurd (by simpa using congrArg List.reverse hrv) hd2
    | cons y t =>
      refine ⟨y, t, rfl, fun h => hd1 ?_⟩
      have hmem : y ∈ d.reverse := by simp [hrv]
      rw [List.mem_reverse] at hmem
      exact h ▸ hmem
  have hne : (⟨'/' :: d⟩ : String) ≠ "" := by
    simp [String.ext_iff]
  have hsfx : strEndsWith ⟨'/' :: d⟩ "/" = false := by
    simp only [strEndsWith, List.isSuffixOf]
    rw [show ('/' :: d).reverse = y :: (t ++ ['/']) by
      simp [List.reverse_cons, hr]]
    simp [List.isPrefixOf]
    exact fun h => hy h.symm
  simp only [rpJoin, hab, Bool.false_eq_true, if_false, if_neg hne,
    hsfx, String.ext_iff]
  simp [String.data_append]

/-- C8 (amended): with a configured, existing bitcode store, the derived
bitcode path for a canonical source `/d/s.e` is
`store / ("." + s + ".o_" + decimal(hash(src_abs)) + ".bc")`: the stem is
the hidden bitcode file stem `.s.o`, not the bare source stem, and the
64-bit path hash is rendered in decimal, not hex16; the rebased path is a
pure function of the source path and therefore identical across
invocations. -/
theorem c8_store_path_amended (store : String) (co : Bool) (d s e : List Char)
    (hd1 : '/' ∉ d) (hd2 : d ≠ []) (hd3 : d ≠ ['.']) (hd4 : d ≠ ['.', '.'])
    (hs1 : '/' ∉ s) (hs2 : s ≠ [])
    (he1 : '/' ∉ e) (he2 : '.' ∉ e) (he3 : e ≠ []) :
    artifactBitcodeFilepath (some store) true co
        ⟨'/' :: (d ++ '/' :: (s ++ '.' :: e))⟩ =
      .ok (rpJoin store ("." ++ (⟨s⟩ : String) ++ ".o_" ++
        toString (calculate_filepath_hash
          ⟨'/' :: (d ++ '/' :: (s ++ '.' :: e))⟩) ++ ".bc")) := by
  have hbody1 : '/' ∉ s ++ '.' :: e := by
    simp only [List.mem_append, List.mem_cons, not_or]
    exact ⟨hs1, by decide, he1⟩
  have hbody2 : s ++ '.' :: e ≠ [] := by simp
  have hslen : 0 < s.length := List.length_pos.mpr hs2
  have helen : 0 < e.length := List.length_pos.mpr he3
  have hbody3 : s ++ '.' :: e ≠ ['.'] := by
    intro h
    have := congrArg List.length h
    simp [List.length_append] at this
    omega
  have hbody4 : s ++ '.' :: e ≠ ['.', '.'] := by
    intro h
    have := congrArg List.length h
    simp [List.length_append] at this
    omega
  have habs : rustIsAbsolute ⟨'/' :: (d ++ '/' :: (s ++ '.' :: e))⟩ = true :=
    rustIsAbsolute_cons_slash _
  have hpar : rpParent ⟨'/' :: (d ++ '/' :: (s ++ '.' :: e))⟩ = some ⟨'/' :: d⟩ :=
    rpParent_two_level d _ hd1 hd2 hd3 hd4 hbody1 hbody2 hbody3 hbody4
  have hfn : rpFileName ⟨'/' :: (d ++ '/' :: (s ++ '.' :: e))⟩ =
      some (s ++ '.' :: e) :=
    rpFileName_two_level d _ hd1 hd2 hd3 hd4 hbody1 hbody2 hbody3 hbody4
  have hsplit : splitFileAtDot (s ++ '.' :: e) = (s, some e) :=
    splitFileAtDot_append s e hs2 he2 he3
  have hstem : rpFileStem ⟨'/' :: (d ++ '/' :: (s ++ '.' :: e))⟩ = some s := by
    simp [rpFileStem, hfn, hsplit]
  -- the joined bitcode path and its decomposition
  have habs2 : rustIsAbsolute ("." ++ (⟨s⟩ : String) ++ ".o.bc") = false := by
    simp [rustIsAbsolute, strStartsWith, String.data_append, List.isPrefixOf]
  have hdata2 : ("." ++ (⟨s⟩ : String) ++ ".o.bc").data =
      '.' :: (s ++ ['.', 'o', '.', 'b', 'c']) := by
    simp [String.data_append]
  have hjoin : rpJoin ⟨'/' :: d⟩ ("." ++ (⟨s⟩ : String) ++ ".o.bc") =
      ⟨'/' :: (d ++ '/' :: ('.' :: (s ++ ['.', 'o', '.', 'b', 'c'])))⟩ := by
    rw [rpJoin_abs_dir d _ hd1 hd2 habs2, hdata2]
  have hb21 : '/' ∉ '.' :: (s ++ ['.', 'o', '.', 'b', 'c']) := by
    simp only [List.mem_cons, List.mem_append, not_or]
    exact ⟨by decide, hs1, by decide⟩
  have hb22 : ('.' : Char) :: (s ++ ['.', 'o', '.', 'b', 'c']) ≠ [] := by simp
  have hb23 : ('.' : Char) :: (s ++ ['.', 'o', '.', 'b', 'c']) ≠ ['.'] := by
    intro h
    have := congrArg List.length h
    simp [List.length_append] at this
  have hb24 : ('.' : Char) :: (s ++ ['.', 'o', '.', 'b', 'c']) ≠ ['.', '.'] := by
    intro h
    have := congrArg List.length h
    simp [List.length_append] at this
  have hfn2 : rpFileName ⟨'/' :: (d ++ '/' ::
      ('.' :: (s ++ ['.', 'o', '.', 'b', 'c'])))⟩ =
      some ('.' :: (s ++ ['.', 'o', '.', 'b', 'c'])) :=
    rpFileName_two_level d _ hd1 hd2 hd3 hd4 hb21 hb22 hb23 hb24
  have hb2eq : ('.' : Char) :: (s ++ ['.', 'o', '.', 'b', 'c']) =
      ('.' :: s ++ ['.', 'o']) ++ '.' :: ['b', 'c'] := by simp
  have hsplit2 : splitFileAtDot ('.' :: (s ++ ['.', 'o', '.', 'b', 'c'])) =
      ('.' :: s ++ ['.', 'o'], some ['b', 'c']) := by
    rw [hb2eq]
    exact splitFileAtDot_append _ _ (by simp) (by decide) (by decide)
  have hstem2 : rpFileStem ⟨'/' :: (d ++ '/' ::
      ('.' :: (s ++ ['.', 'o', '.', 'b', 'c'])))⟩ =
      some ('.' :: s ++ ['.', 'o']) := by
    simp [rpFileStem, hfn2, hsplit2]
  have hext2 : rpExtension ⟨'/' :: (d ++ '/' ::
      ('.' :: (s ++ ['.', 'o', '.', 'b', 'c'])))⟩ = some ['b', 'c'] := by
    simp [rpExtension, hfn2, hsplit2]
  have hname : (⟨'.' :: s ++ ['.', 'o']⟩ : String) ++ "_" ++
      toString (calculate_filepath_hash
        ⟨'/' :: (d ++ '/' :: (s ++ '.' :: e))⟩) ++ "." ++
      (⟨['b', 'c']⟩ : String) =
      "." ++ (⟨s⟩ : String) ++ ".o_" ++
      toString (calculate_filepath_hash
        ⟨'/' :: (d ++ '/' :: (s ++ '.' :: e))⟩) ++ ".bc" := by
    apply String.ext
    simp [String.data_append]
  simp only [artifactBitcodeFilepath, derive_object_and_bitcode_filepath,
    habs, Bool.not_true, Bool.false_eq_true, if_false, hpar, hfn, hstem,
    Outcome.bind_ok_left, hjoin, hfn2, hstem2, hext2, Option.getD_some, hname]
  simp

/-- Witness for C8 at the concrete source `/tmp/foo.c` with store `/store`. -/
theorem c8_store_path_amended_witness :
    artifactBitcodeFilepath (some "/store") true false
        ⟨'/' :: (['t', 'm', 'p'] ++ '/' :: (['f', 'o', 'o'] ++ '.' :: ['c']))⟩ =
      .ok (rpJoin "/store" ("." ++ (⟨['f', 'o', 'o']⟩ : String) ++ ".o_" ++
        toString (calculate_filepath_hash
          ⟨'/' :: (['t', 'm', 'p'] ++ '/' ::
            (['f', 'o', 'o'] ++ '.' :: ['c']))⟩) ++ ".bc")) :=
  c8_store_path_amended "/store" false ['t', 'm', 'p'] ['f', 'o', 'o'] ['c']
    (by decide) (by decide) (by decide) (by decide) (by decide) (by decide)
    (by decide) (by decide) (by decide)

theorem set_same_get {β : Type} (l : List β) (i : Nat) (a : β)
    (h : l.get? i = some a) : l.set i a = l := by
  induction l generalizing i with
  | nil => rfl
  | cons x xs ih =>
    cases i with
    | zero => simp at h; simp [h]
    | succ n =>
      simp only [List.get?_cons_succ] at h
      simp [ih n h]

theorem appendReloc_map_name (secs : List WSection) (outId : Nat) (r : WReloc) :
    (appendReloc secs outId r).map (fun s => s.name) =
      secs.map (fun s => s.name) := by
  unfold appendReloc
  cases hg : secs.get? outId with
  | none => rfl
  | some w =>
    rw [List.map_set]
    exact set_same_get _ _ _ (by rw [List.get?_map, hg]; rfl)

theorem sectionSymbolW_map_name (secs : List WSection) (syms : List WSymbol)
    (outId : Nat) :
    (sectionSymbolW secs syms outId).1.map (fun s => s.name) =
      secs.map (fun s => s.name) := by
  unfold sectionSymbolW
  split
  next w hg =>
    split
    next symId hs => rfl
    next hs =>
      rw [List.map_set]
      exact set_same_get _ _ _ (by rw [List.get?_map, hg]; rfl)
  next hg => rfl

theorem resolveRelocTarget_map_name (secMap symMap : List (Nat × Nat))
    (st : List WSection × List WSymbol) (t : RRelocTarget)
    (trip : List WSection × List WSymbol × Nat)
    (h : resolveRelocTarget secMap symMap st t = .ok trip) :
    trip.1.map (fun s => s.name) = st.1.map (fun s => s.name) := by
  unfold resolveRelocTarget at h
  split at h
  · split at h
    · cases h; rfl
    · cases h
  · split at h
    · cases h; exact sectionSymbolW_map_name _ _ _
    · cases h
  · cases h

theorem foldl_bind_ok_of_ok {α σ : Type} (g : σ → α → Outcome σ) (l : List α)
    (x : Outcome σ) (s' : σ)
    (h : l.foldl (fun acc p => acc >>= fun st => g st p) x = .ok s') :
    ∃ s0, x = .ok s0 := by
  induction l generalizing x with
  | nil => exact ⟨s', h⟩
  | cons p rest ih =>
    rw [List.foldl_cons] at h
    obtain ⟨s1, h1⟩ := ih (x >>= fun st => g st p) h
    cases x with
    | ok s0 => exact ⟨s0, rfl⟩
    | err e => simp [Outcome.bind_err_left] at h1
    | panicked => simp [Outcome.bind_panicked_left] at h1
    | outOfFuel => simp [Outcome.bind_outOfFuel_left] at h1

theorem foldl_bind_preserves {α σ : Type} (g : σ → α → Outcome σ)
    (P : σ → σ → Prop) (hrefl : ∀ s, P s s)
    (htrans : ∀ a b c, P a b → P b c → P a c)
    (hstep : ∀ s p s', g s p = .ok s' → P s s') :
    ∀ (l : List α) (s0 s' : σ),
      l.foldl (fun acc p => acc >>= fun st => g st p) (.ok s0) = .ok s' →
        P s0 s' := by
  intro l
  induction l with
  | nil =>
    intro s0 s' h
    simp only [List.foldl_nil] at h
    cases h
    exact hrefl s0
  | cons p rest ih =>
    intro s0 s' h
    rw [List.foldl_cons] at h
    simp only [Outcome.bind_ok_left] at h
    obtain ⟨s1, h1⟩ := foldl_bind_ok_of_ok g rest (g s0 p) s' h
    rw [h1] at h
    exact htrans _ _ _ (hstep s0 p s1 h1) (ih s1 s' h)

theorem copyOneReloc_map_name (secMap symMap : List (Nat × Nat)) (outId : Nat)
    (st st' : List WSection × List WSymbol) (r : RReloc)
    (h : copyOneReloc secMap symMap outId st r = .ok st') :
    st'.1.map (fun s => s.name) = st.1.map (fun s => s.name) := by
  unfold copyOneReloc at h
  cases hres : resolveRelocTarget secMap symMap st r.target with
  | ok trip =>
    rw [hres] at h
    simp only [Outcome.bind_ok_left] at h
    cases h
    simp only
    rw [appendReloc_map_name]
    exact resolveRelocTarget_map_name secMap symMap st r.target trip hres
  | err e => rw [hres] at h; simp at h
  | panicked => rw [hres] at h; simp at h
  | outOfFuel => rw [hres] at h; simp at h

theorem copySectionRelocs_map_name (secMap symMap : List (Nat × Nat))
    (outId : Nat) (relocs : List RReloc) (st st' : List WSection × List WSymbol)
    (h : copySectionRelocs secMap symMap outId relocs st = .ok st') :
    st'.1.map (fun s => s.name) = st.1.map (fun s => s.name) :=
  foldl_bind_preserves (copyOneReloc secMap symMap outId)
    (fun a b => b.1.map (fun s => s.name) = a.1.map (fun s => s.name))
    (fun _ => rfl) (fun _ _ _ h1 h2 => h2.trans h1)
    (fun s p s' hs => copyOneReloc_map_name secMap symMap outId s s' p hs)
    relocs st st' h

theorem copyRelocsStep_map_name (secMap symMap : List (Nat × Nat))
    (st st' : List WSection × List WSymbol) (p : Nat × RSection)
    (h : copyRelocsStep secMap symMap st p = .ok st') :
    st'.1.map (fun s => s.name) = st.1.map (fun s => s.name) := by
  unfold copyRelocsStep at h
  split at h
  · cases h; rfl
  · split at h
    · cases h
    · exact copySectionRelocs_map_name _ _ _ _ _ _ h

theorem copyRelocations_map_name (o : ObjFile) (secMap : List (Nat × Nat))
    (secs0 : List WSection) (syms0 : List WSymbol) (symMap : List (Nat × Nat))
    (st' : List WSection × List WSymbol)
    (h : copyRelocations o secMap secs0 syms0 symMap = .ok st') :
    st'.1.map (fun s => s.name) = secs0.map (fun s => s.name) :=
  foldl_bind_preserves (copyRelocsStep secMap symMap)
    (fun a b => b.1.map (fun s => s.name) = a.1.map (fun s => s.name))
    (fun _ => rfl) (fun _ _ _ h1 h2 => h2.trans h1)
    (fun s p s' hs => copyRelocsStep_map_name secMap symMap s s' p hs)
    o.sections.enum (secs0, syms0) st' h

theorem snd_mem_of_mem_enumFrom {β : Type} (l : List β) :
    ∀ (n : Nat) (p : Nat × β), p ∈ l.enumFrom n → p.2 ∈ l := by
  induction l with
  | nil => intro n p h; simp [List.enumFrom] at h
  | cons a as ih =>
    intro n p h
    rw [List.enumFrom] at h
    rcases List.mem_cons.mp h with h1 | h2
    · subst h1; exact List.mem_cons_self a as
    · exact List.mem_cons_of_mem a (ih (n + 1) p h2)

theorem copySections_fold_mem (l : List (Nat × RSection))
    (acc : List WSection × List (Nat × Nat)) :
    ∀ ws ∈ (l.foldl copySectionsStep acc).1,
      ws ∈ acc.1 ∨
        ∃ pr ∈ l, pr.2.kind ≠ RSectionKind.metadata ∧ ws.name = pr.2.name := by
  induction l generalizing acc with
  | nil => intro ws h; exact .inl h
  | cons p rest ih =>
    intro ws h
    rw [List.foldl_cons] at h
    rcases ih (copySectionsStep acc p) ws h with hin | ⟨pr, hpr, hk, hn⟩
    · unfold copySectionsStep at hin
      by_cases hm : p.2.kind = .metadata
      · rw [if_pos hm] at hin
        exact .inl hin
      · rw [if_neg hm] at hin
        simp only at hin
        rcases List.mem_append.mp hin with h1 | h2
        · exact .inl h1
        · right
          refine ⟨p, List.mem_cons_self p rest, hm, ?_⟩
          rw [List.mem_singleton] at h2
          rw [h2]
    · exact .inr ⟨pr, List.mem_cons_of_mem p hpr, hk, hn⟩

theorem copySections_mem (o : ObjFile) :
    ∀ ws ∈ (copySections o).1,
      ∃ sec ∈ o.sections, sec.kind ≠ RSectionKind.metadata ∧
        ws.name = sec.name := by
  intro ws h
  rcases copySections_fold_mem o.sections.enum ([], []) ws h with hin | ⟨pr, hpr, hk, hn⟩
  · simp at hin
  · exact ⟨pr.2, snd_mem_of_mem_enumFrom o.sections 0 pr hpr, hk, hn⟩

/-- On success, `copy_object_file` preserves the format, and every output
section's name is the name of some retained (non-metadata) input
section. -/
theorem copy_object_file_sections (o : ObjFile) (w : WObject)
    (h : copy_object_file o = .ok w) :
    w.format = o.format ∧
    ∀ ws ∈ w.sections,
      ∃ sec ∈ o.sections, sec.kind ≠ RSectionKind.metadata ∧
        ws.name = sec.name := by
  unfold copy_object_file at h
  by_cases hk : o.kind ≠ RObjectKind.relocatable
  · rw [if_pos hk] at h; cases h
  · rw [if_neg hk] at h
    simp only [] at h
    cases hsyms : copySymbols o (copySections o).2 with
    | ok sp =>
      rw [hsyms] at h
      simp only [Outcome.bind_ok_left] at h
      cases hrel : copyRelocations o (copySections o).2 (copySections o).1 sp.1 sp.2 with
      | ok st =>
        rw [hrel] at h
        simp only [Outcome.bind_ok_left] at h
        cases hcom : copyComdats o (copySections o).2 sp.2 with
        | ok coms =>
          rw [hcom] at h
          simp only [Outcome.bind_ok_left] at h
          cases h
          refine ⟨rfl, ?_⟩
          intro ws hws
          have hnames := copyRelocations_map_name o (copySections o).2
            (copySections o).1 sp.1 sp.2 st hrel
          have : ws.name ∈ st.1.map (fun s => s.name) :=
            List.mem_map_of_mem (fun s => s.name) hws
          rw [hnames] at this
          obtain ⟨ws0, hws0, hname⟩ := List.mem_map.mp this
          obtain ⟨sec, hsec, hkind, hn0⟩ := copySections_mem o ws0 hws0
          exact ⟨sec, hsec, hkind, by rw [← hname, hn0]⟩
        | err e => rw [hcom] at h; simp at h
        | panicked => rw [hcom] at h; simp at h
        | outOfFuel => rw [hcom] at h; simp at h
      | err e => rw [hrel] at h; simp at h
      | panicked => rw [hrel] at h; simp at h
      | outOfFuel => rw [hrel] at h; simp at h
    | err e => rw [hsyms] at h; simp at h
    | panicked => rw [hsyms] at h; simp at h
    | outOfFuel => rw [hsyms] at h; simp at h

theorem rustTrimList_eq_self (l : List Char)
    (h1 : l.head?.all (fun c => !isRustWhitespace c) = true)
    (h2 : l.getLast?.all (fun c => !isRustWhitespace c) = true) :
    rustTrimList l = l := by
  unfold rustTrimList
  have hd : l.dropWhile isRustWhitespace = l := by
    cases l with
    | nil => rfl
    | cons a as =>
      simp only [List.head?_cons, Option.all_some, Bool.not_eq_true'] at h1
      simp [List.dropWhile_cons, h1]
  rw [hd]
  have hrev : l.reverse.dropWhile isRustWhitespace = l.reverse := by
    cases hr : l.reverse with
    | nil => rfl
    | cons a as =>
      have hlast : l.getLast? = some a := by
        rw [← List.head?_reverse, hr, List.head?_cons]
      rw [hlast, Option.all_some, Bool.not_eq_true'] at h2
      simp [List.dropWhile_cons, h2]
  rw [hrev, List.reverse_reverse]

theorem rustTrimList_append_newline (l : List Char)
    (h1 : l.head?.all (fun c => !isRustWhitespace c) = true)
    (h2 : l.getLast?.all (fun c => !isRustWhitespace c) = true) :
    rustTrimList (l ++ ['\n']) = l := by
  unfold rustTrimList
  cases l with
  | nil => decide
  | cons a as =>
    simp only [List.head?_cons, Option.all_some, Bool.not_eq_true'] at h1
    have hd : ((a :: as) ++ ['\n']).dropWhile isRustWhitespace =
        (a :: as) ++ ['\n'] := by
      rw [List.cons_append]
      simp [List.dropWhile_cons, h1]
    rw [hd]
    have hrevEq : ((a :: as) ++ ['\n']).reverse = '\n' :: (a :: as).reverse := by
      simp
    rw [hrevEq, List.dropWhile_cons]
    have hnws : isRustWhitespace '\n' = true := by decide
    rw [if_pos hnws]
    have hrev : (a :: as).reverse.dropWhile isRustWhitespace =
        (a :: as).reverse := by
      cases hr : (a :: as).reverse with
      | nil => rfl
      | cons b bs =>
        have hlast : (a :: as).getLast? = some b := by
          rw [← List.head?_reverse, hr, List.head?_cons]
        rw [hlast, Option.all_some, Bool.not_eq_true'] at h2
        simp [List.dropWhile_cons, h2]
    rw [hrev, List.reverse_reverse]

theorem find?_append_none {β : Type} (pfn : β → Bool) (l1 l2 : List β)
    (h : ∀ x ∈ l1, pfn x = false) : (l1 ++ l2).find? pfn = l2.find? pfn := by
  induction l1 with
  | nil => rfl
  | cons a as ih =>
    rw [List.cons_append, List.find?_cons, h a (List.mem_cons_self a as)]
    exact ih (fun x hx => h x (List.mem_cons_of_mem a hx))

theorem bitcodeSectionNameFor_of_params (fmt : RBinaryFormat)
    (seg nm : String) (fl : RSectionFlags)
    (h : sectionParamsFor fmt = .ok (seg, nm, fl)) :
    bitcodeSectionNameFor fmt = .ok nm ∧
      (nm = ELF_SECTION_NAME ∨ nm = DARWIN_SECTION_NAME ∨
        nm = COFF_SECTION_NAME) := by
  cases fmt with
  | elf =>
    simp only [sectionParamsFor, Outcome.ok.injEq, Prod.mk.injEq] at h
    exact ⟨by simp [bitcodeSectionNameFor, h.2.1], .inl h.2.1.symm⟩
  | machO =>
    simp only [sectionParamsFor, Outcome.ok.injEq, Prod.mk.injEq] at h
    exact ⟨by simp [bitcodeSectionNameFor, h.2.1], .inr (.inl h.2.1.symm)⟩
  | coff =>
    simp only [sectionParamsFor, Outcome.ok.injEq, Prod.mk.injEq] at h
    exact ⟨by simp [bitcodeSectionNameFor, h.2.1], .inr (.inr h.2.1.symm)⟩
  | otherFormat => simp [sectionParamsFor] at h

/-- Shared shape of the C1 round trip: on any successful embed into an
object none of whose retained (non-metadata) sections already uses a
bitcode section name, extraction from the written object reduces to the
trim/split/sort/dedup pipeline applied to the embedded bitcode-filepath
string. -/
theorem c1_extract_embed_general (cwd p objPath : String) (o : ObjFile)
    (res : WObject × List FsOp)
    (hembed : embed_bitcode_filepath_to_object_file cwd p objPath none o =
      .ok res)
    (hfresh : ∀ sec ∈ o.sections, sec.kind ≠ RSectionKind.metadata →
      sec.name ≠ ELF_SECTION_NAME ∧ sec.name ≠ DARWIN_SECTION_NAME ∧
        sec.name ≠ COFF_SECTION_NAME) :
    extract_bitcode_filepaths_from_object_file res.1 =
      .ok (dedupAdj pathEqB (sortStable pathLeB
        ((splitOnChar '\n'
          (rustTrimList (bitcodeFilepathString cwd p).data)).map
          (fun l => ⟨l⟩)))) := by
  unfold embed_bitcode_filepath_to_object_file at hembed
  cases hfmt : sectionParamsFor o.format with
  | ok t =>
    obtain ⟨seg, nm, fl⟩ := t
    rw [hfmt] at hembed
    simp only [Outcome.bind_ok_left] at hembed
    cases hcopy : copy_object_file o with
    | ok w =>
      rw [hcopy] at hembed
      simp only [Outcome.bind_ok_left] at hembed
      cases hembed
      obtain ⟨hfmtEq, hnames⟩ := copy_object_file_sections o w hcopy
      obtain ⟨hbn, hnm⟩ := bitcodeSectionNameFor_of_params o.format seg nm fl hfmt
      unfold extract_bitcode_filepaths_from_object_file
        extract_bitcode_filepaths_from_parsed_object parsedOfWritten
      simp only [List.map_append, hfmtEq, hbn, Outcome.bind_ok_left]
      rw [find?_append_none]
      · simp only [List.map_cons, List.map_nil, List.find?_cons,
          beq_self_eq_true, Option.getD_some]
      · intro x hx
        obtain ⟨ws, hwmem, hconv⟩ := List.mem_map.mp hx
        have hxname : x.name = ws.name := by rw [← hconv]
        obtain ⟨sec, hsec, hmeta, hwn⟩ := hnames ws hwmem
        have hne : x.name ≠ nm := by
          rw [hxname, hwn]
          rcases hnm with h | h | h <;> rw [h]
          · exact (hfresh sec hsec hmeta).1
          · exact (hfresh sec hsec hmeta).2.1
          · exact (hfresh sec hsec hmeta).2.2
        simp [hne]
    | err e => rw [hcopy] at hembed; simp at hembed
    | panicked => rw [hcopy] at hembed; simp at hembed
    | outOfFuel => rw [hcopy] at hembed; simp at hembed
  | err e => rw [hfmt] at hembed; simp at hembed
  | panicked => rw [hfmt] at hembed; simp at hembed
  | outOfFuel => rw [hfmt] at hembed; simp at hembed

/-- C1 (amended): for a relocatable object of a supported format none of
whose retained (non-metadata) sections already uses a bitcode section
name, embedding a path `p` and then extracting from the written object
yields exactly the embedded string — `p` itself when `p` is absolute, and
the canonicalization of `p` against the working directory when `p` is
relative — provided that string contains no newline, does not start with
whitespace (automatic for an absolute `p`) and does not end with
whitespace. -/
theorem c1_roundtrip_amended (cwd p objPath : String) (o : ObjFile)
    (res : WObject × List FsOp)
    (hembed : embed_bitcode_filepath_to_object_file cwd p objPath none o =
      .ok res)
    (hnl : '\n' ∉ (if rustIsAbsolute p then p
      else canonicalizeModel cwd p).data)
    (hhead : rustIsAbsolute p = false →
      (canonicalizeModel cwd p).data.head?.all
        (fun c => !isRustWhitespace c) = true)
    (hws : (if rustIsAbsolute p then p
      else canonicalizeModel cwd p).data.getLast?.all
        (fun c => !isRustWhitespace c) = true)
    (hfresh : ∀ sec ∈ o.sections, sec.kind ≠ RSectionKind.metadata →
      sec.name ≠ ELF_SECTION_NAME ∧ sec.name ≠ DARWIN_SECTION_NAME ∧
        sec.name ≠ COFF_SECTION_NAME) :
    extract_bitcode_filepaths_from_object_file res.1 =
      .ok [if rustIsAbsolute p then p else canonicalizeModel cwd p] := by
  rw [c1_extract_embed_general cwd p objPath o res hembed hfresh]
  cases habs : rustIsAbsolute p with
  | true =>
    rw [if_pos habs] at hnl hws
    rw [if_pos rfl]
    have hcontent : bitcodeFilepathString cwd p = p := by
      unfold bitcodeFilepathString
      rw [if_pos habs]
    rw [hcontent]
    obtain ⟨rest, hrest⟩ : ∃ rest, p.data = '/' :: rest := by
      unfold rustIsAbsolute strStartsWith at habs
      cases hdl : p.data with
      | nil => rw [hdl] at habs; simp [List.isPrefixOf] at habs
      | cons a as =>
        rw [hdl] at habs
        simp only [List.isPrefixOf, Bool.and_eq_true, beq_iff_eq] at habs
        exact ⟨as, by rw [habs.1]⟩
    have htrim : rustTrimList p.data = p.data := by
      apply rustTrimList_eq_self
      · rw [hrest]; rfl
      · exact hws
    rw [htrim, splitOnChar_of_not_mem '\n' p.data hnl]
    simp [sortStable, insertStable, dedupAdj, dedupAdjFrom]
  | false =>
    have habs' : ¬ (rustIsAbsolute p = true) := by simp [habs]
    rw [if_neg habs'] at hnl hws
    rw [if_neg Bool.false_ne_true]
    have hdata : (bitcodeFilepathString cwd p).data =
        (canonicalizeModel cwd p).data ++ ['\n'] := by
      unfold bitcodeFilepathString
      rw [if_neg habs']
      rfl
    rw [hdata, rustTrimList_append_newline _ (hhead habs) hws,
      splitOnChar_of_not_mem '\n' _ hnl]
    simp [sortStable, insertStable, dedupAdj, dedupAdjFrom]

/-- Witness for C1: embed the absolute path `/tmp/hello.bc` and the
relative path `hello.bc` (canonicalized against the working directory
`/w`) into the demo ELF relocatable and extract each back. -/
theorem c1_roundtrip_amended_witness :
    (extract_bitcode_filepaths_from_object_file
      (outcomeGetD
        (embed_bitcode_filepath_to_object_file "/w" "/tmp/hello.bc" "in.o" none
          demoElfObject)
        (⟨.elf, 0, 0, 0, [], [], []⟩, [])).1 = .ok ["/tmp/hello.bc"]) ∧
    (extract_bitcode_filepaths_from_object_file
      (outcomeGetD
        (embed_bitcode_filepath_to_object_file "/w" "hello.bc" "in.o" none
          demoElfObject)
        (⟨.elf, 0, 0, 0, [], [], []⟩, [])).1 = .ok ["/w/hello.bc"]) :=
  ⟨c1_roundtrip_amended "/w" "/tmp/hello.bc" "in.o" demoElfObject _
      (by decide) (by decide) (by decide) (by decide) (by decide),
    c1_roundtrip_amended "/w" "hello.bc" "in.o" demoElfObject _
      (by decide) (by decide) (by decide) (by decide) (by decide)⟩
